import Mathlib

/-!
Verification development for the ATiQ WebContainer package manager
(`src/package-manager/package-manager.ts`).

The TypeScript class `PackageManager` is shallowly embedded as pure Lean
functions.  JavaScript `Map`s and plain objects used as dictionaries are
embedded as association lists (`List (String × α)`) with JS semantics:
lookup returns the first binding, and `set` overwrites in place (keeping the
original position) or appends a fresh binding at the end, exactly as JS
`Map.set` / property assignment behave with respect to iteration order.

Time: `Date.now()` is embedded as a single `now : Nat` constant per call
(the whole install runs at one model instant, so the `duration` field, which
the source computes as `Date.now() - startTime`, is `0` in the model).

Bytes: file and cache payloads are `String`s (UTF-8 contents).  The one
exception is cached registry metadata: the source stores
`TextEncoder().encode(JSON.stringify(metadata))` and later recovers the very
same value with `JSON.parse(TextDecoder().decode(bytes))`; since that
serialize/parse pair is a bijection on the values involved, the model stores
the metadata value itself under the constructor `CacheData.metaBytes`, which
denotes exactly those raw JSON bytes.
-/

/-- First-match lookup in an association list (JS `Map.get` / property read). -/
def lookupA {α : Type} : List (String × α) → String → Option α
  | [], _ => none
  | (k, v) :: rest, key => if k = key then some v else lookupA rest key

/-- JS `Map.set` / property assignment: overwrite in place keeping the original
position, or append a fresh binding at the end. -/
def setA {α : Type} : List (String × α) → String → α → List (String × α)
  | [], key, v => [(key, v)]
  | (k, w) :: rest, key, v =>
    if k = key then (key, v) :: rest else (k, w) :: setA rest key v

/-- Keys of an association list, in iteration order. -/
def keysA {α : Type} (l : List (String × α)) : List String :=
  l.map Prod.fst

/-- One version record of a registry response:
`versions[v] = \x7b dependencies, dist: \x7b tarball \x7d \x7d`. -/
structure VersionRecord where
  dependencies : List (String × String)
  tarball : Option String
deriving DecidableEq, Repr

/-- A registry response for one package:
`\x7b "dist-tags": \x7b latest \x7d, versions \x7d`. -/
structure Metadata where
  distTagLatest : Option String
  versions : List (String × VersionRecord)
deriving DecidableEq, Repr

/-- The npm registry: maps a package name to the JSON body served at
`GET \x7bregistryUrl\x7d/\x7bname\x7d`; `none` models a non-2xx response. -/
abbrev Registry : Type := List (String × Metadata)

/-- The `packageData` object built by `resolveDependencies` (lines 160-166).
All fields are optional because the object flows through `any`-typed code:
a field that the source literal does not set (such as `integrity`) is `none`,
exactly like the missing JS property reading as `undefined`. -/
structure PackageData where
  name : Option String
  version : Option String
  tarball : Option String
  dependencies : List (String × String)
  resolvedAt : Option Nat
  integrity : Option String
deriving DecidableEq, Repr

/-- Payload of a cache entry.  The shared `this.cache` map holds two shapes of
data: raw JSON metadata bytes (stored by `fetchPackageMetadata`) and resolved
`packageData` objects (stored by the resolver).  `metaBytes m` denotes the
bytes `TextEncoder().encode(JSON.stringify(m))`. -/
inductive CacheData where
  | metaBytes : Metadata → CacheData
  | obj : PackageData → CacheData
deriving DecidableEq, Repr

/-- A `CacheEntry` as built by `cachePackage`. -/
structure CacheEntry where
  key : String
  data : CacheData
  timestamp : Nat
  expires : Option Nat
deriving DecidableEq, Repr

/-- The shared `this.cache` map. -/
abbrev Cache : Type := List (String × CacheEntry)

/-- `isCacheValid` (lines 310-313): entries without `expires` never expire. -/
def isCacheValid (now : Nat) (entry : CacheEntry) : Bool :=
  match entry.expires with
  | none => true
  | some t => decide (now < t)

/-- `cachePackage` (lines 301-308), specialised to the resolver call site
(line 169): the argument object has no `data`/`expires` fields, so
`data.data || data` is the object itself and `expires` is `undefined`. -/
def cachePackageObj (cache : Cache) (pkg : String) (pd : PackageData) (now : Nat) : Cache :=
  setA cache pkg { key := pkg, data := CacheData.obj pd, timestamp := now, expires := none }

/-- `fetchPackageMetadata` (lines 180-209).  Returns the result together with
the updated cache.  A cache hit whose payload is not bytes models the
`TextDecoder().decode` TypeError on a non-buffer payload; an absent registry
entry models a non-2xx response (`Failed to fetch package metadata`). -/
def fetchPackageMetadata (reg : Registry) (now : Nat) (cache : Cache) (name : String) :
    Except String Metadata × Cache :=
  let cacheKey := "metadata:" ++ name
  let fromNetwork : Except String Metadata × Cache :=
    match lookupA reg name with
    | none => (Except.error "Failed to fetch package metadata: Not Found", cache)
    | some m =>
      (Except.ok m,
       setA cache cacheKey
         { key := cacheKey, data := CacheData.metaBytes m, timestamp := now,
           expires := some (now + 5 * 60 * 1000) })
  match lookupA cache cacheKey with
  | some entry =>
    if isCacheValid now entry then
      match entry.data with
      | CacheData.metaBytes m => (Except.ok m, cache)
      | CacheData.obj _ => (Except.error "TypeError: cached payload is not a buffer", cache)
    else fromNetwork
  | none => fromNetwork

/-- The version the resolver selects (line 144):
`metadata[...dist-tags...]?.latest || ...latest...` — an absent or empty
`latest` dist-tag falls back to the literal string `"latest"`. -/
def chooseVersion (m : Metadata) : String :=
  match m.distTagLatest with
  | some t => if t.isEmpty then "latest" else t
  | none => "latest"

/-- Body of the resolver `try` block (lines 141-166): fetch metadata, select
the latest version, look it up, and build the `packageData` record together
with the dependency names to enqueue.  The cache is returned in every case
because `fetchPackageMetadata` may have populated it before a later throw. -/
def resolveTry (reg : Registry) (now : Nat) (cache : Cache) (pkg : String) :
    Except String (PackageData × List String) × Cache :=
  match fetchPackageMetadata reg now cache pkg with
  | (Except.error e, cache') => (Except.error e, cache')
  | (Except.ok metadata, cache') =>
    let version := chooseVersion metadata
    match lookupA metadata.versions version with
    | none =>
      (Except.error ("Version " ++ version ++ " not found for package " ++ pkg), cache')
    | some versionInfo =>
      let packageDeps := versionInfo.dependencies
      let depNames := packageDeps.map Prod.fst
      let packageData : PackageData :=
        { name := some pkg, version := some version, tarball := versionInfo.tarball,
          dependencies := packageDeps, resolvedAt := some now, integrity := none }
      (Except.ok (packageData, depNames), cache')

/-- The resolution graph, in insertion order (a JS `Map`). -/
abbrev Graph : Type := List (String × PackageData)

/-- Reading `cached.data` as a `packageData` object after
`resolved.set(pkg, cached.data)` (line 137).  If the payload is raw bytes, a
`Uint8Array` has none of the `PackageData` properties, so every field reads
as `undefined` (`dependencies` later defaults to the empty map). -/
def dataToPkg : CacheData → PackageData
  | CacheData.obj p => p
  | CacheData.metaBytes _ =>
    { name := none, version := none, tarball := none, dependencies := [],
      resolvedAt := none, integrity := none }

/-- The package-level cache probe (lines 135-139): a hit needs a present and
unexpired entry under the bare package name. -/
def cacheHitData (now : Nat) (cache : Cache) (pkg : String) : Option CacheData :=
  match lookupA cache pkg with
  | some entry => if isCacheValid now entry then some entry.data else none
  | none => none

/-- The `while (queue.length > 0)` loop of `resolveDependencies`
(lines 123-178), with an explicit fuel argument to make the recursion
structural; `none` means the fuel ran out (`resolveFuel` below is proved
sufficient, so the source's unbounded loop is faithfully total).
State: the work queue, the `visited` name set, the `resolved` graph and the
shared cache.  Returns the final graph, visited set and cache. -/
def resolveLoop (reg : Registry) (now : Nat) :
    Nat → List String → List String → Graph → Cache →
    Option (Graph × List String × Cache)
  | _, [], visited, resolved, cache => some (resolved, visited, cache)
  | 0, _ :: _, _, _, _ => none
  | Nat.succ fuel, pkg :: rest, visited, resolved, cache =>
    if pkg ∈ visited then
      resolveLoop reg now fuel rest visited resolved cache
    else
      match cacheHitData now cache pkg with
      | some d =>
        resolveLoop reg now fuel rest (pkg :: visited)
          (setA resolved pkg (dataToPkg d)) cache
      | none =>
        match resolveTry reg now cache pkg with
        | (Except.ok (packageData, depNames), cache') =>
          resolveLoop reg now fuel (rest ++ depNames) (pkg :: visited)
            (setA resolved pkg packageData)
            (cachePackageObj cache' pkg packageData now)
        | (Except.error _, cache') =>
          resolveLoop reg now fuel rest (pkg :: visited) resolved cache'

/-- Dependency count of the version `resolveTry` would select from `m`. -/
def depsLenOfMeta (m : Metadata) : Nat :=
  match lookupA m.versions (chooseVersion m) with
  | some vr => vr.dependencies.length
  | none => 0

/-- Weight that the registry can contribute to processing name `n`. -/
def regDepsLen (reg : Registry) (n : String) : Nat :=
  match lookupA reg n with
  | some m => depsLenOfMeta m
  | none => 0

/-- Weight that an initial cache entry (raw metadata bytes) at key `k` can
contribute to processing the name that `k` is the metadata key of. -/
def initMetaLen (cache0 : Cache) (k : String) : Nat :=
  match lookupA cache0 k with
  | some e =>
    match e.data with
    | CacheData.metaBytes m => depsLenOfMeta m
    | CacheData.obj _ => 0
  | none => 0

/-- Registry part of the termination potential: every not-yet-visited
registry name may still cost one queue pop plus its dependency pushes. -/
def potReg (reg : Registry) (visited : List String) : Nat :=
  Finset.sum (((reg.map Prod.fst).toFinset).filter (fun n => n ∉ visited))
    (fun n => 1 + regDepsLen reg n)

/-- Initial-cache part of the termination potential, indexed by cache keys:
key `k` is spent once the name it is the metadata key of gets visited. -/
def potInit (cache0 : Cache) (visited : List String) : Nat :=
  Finset.sum (((cache0.map Prod.fst).toFinset).filter
      (fun k => ∀ v ∈ visited, k ≠ "metadata:" ++ v))
    (fun k => 1 + initMetaLen cache0 k)

/-- Fuel that provably suffices for `resolveLoop` to drain its queue. -/
def resolveFuel (reg : Registry) (cache0 : Cache) (packages : List String) : Nat :=
  packages.length + potReg reg [] + potInit cache0 []

/-- `resolveDependencies` (lines 123-178): run the loop from the requested
names with the proved-sufficient fuel.  The `getD` default is unreachable
(see the fuel-sufficiency theorem); the source returns the graph, and the
mutated `this.cache` is returned alongside it. -/
def resolveDependencies (reg : Registry) (now : Nat) (cache : Cache)
    (packages : List String) : Graph × Cache :=
  match resolveLoop reg now (resolveFuel reg cache packages) packages [] [] cache with
  | some (resolved, _, cache') => (resolved, cache')
  | none => ([], cache)

/-- Entry of the lockfile `packages` map (lines 288-293).  `version` and
`resolved` come from possibly-`undefined` fields of `packageData`;
`integrity` applies the `|| ...sha512-unknown...` default. -/
structure LockPkgEntry where
  version : Option String
  resolved : Option String
  integrity : String
  dependencies : List (String × String)
deriving DecidableEq, Repr

/-- The lockfile object (lines 279-285), with its maps in insertion order. -/
structure Lockfile where
  name : String
  version : String
  lockfileVersion : Nat
  packages : List (String × LockPkgEntry)
  dependencies : List (String × Option String)
deriving DecidableEq, Repr

/-- The `packages` entry built for one resolved package (lines 288-293). -/
def mkLockEntry (pd : PackageData) : LockPkgEntry :=
  { version := pd.version, resolved := pd.tarball,
    integrity := pd.integrity.getD "sha512-unknown",
    dependencies := pd.dependencies }

/-- One iteration of the `for (const [pkgName, packageData] of resolvedGraph)`
loop of `generateLockfile` (lines 287-296). -/
def lockStep (lf : Lockfile) (p : String × PackageData) : Lockfile :=
  { lf with
    packages := setA lf.packages ("node_modules/" ++ p.1) (mkLockEntry p.2),
    dependencies := setA lf.dependencies p.1 p.2.version }

/-- `generateLockfile` (lines 278-299): fold the per-package loop over the
graph in iteration order. -/
def generateLockfile (resolvedGraph : Graph) : Lockfile :=
  resolvedGraph.foldl lockStep
    { name := "atiq-generated-lock", version := "1.0.0", lockfileVersion := 1,
      packages := [], dependencies := [] }

mutual
/-- JSON values, restricted to the fragment this program serializes
(strings, numbers and objects; no arrays occur in any written file). -/
inductive JVal where
  | jstr : String → JVal
  | jnum : Nat → JVal
  | jobj : JFields → JVal
/-- Object fields of a `JVal.jobj`, kept in insertion order. -/
inductive JFields where
  | fnil : JFields
  | fcons : String → JVal → JFields → JFields
end

/-- Build ordered object fields from a list. -/
def fieldsOfList : List (String × JVal) → JFields
  | [] => JFields.fnil
  | (k, v) :: rest => JFields.fcons k v (fieldsOfList rest)

/-- Lowercase hexadecimal digit, as `JSON.stringify` emits in `\u00xx`. -/
def hexDigit (n : Nat) : Char :=
  if n < 10 then Char.ofNat (48 + n) else Char.ofNat (87 + n)

/-- `JSON.stringify` escaping of one character inside a string literal. -/
def escChar (c : Char) : String :=
  if c = Char.ofNat 34 then "\\\""
  else if c = Char.ofNat 92 then "\\\\"
  else if c = Char.ofNat 8 then "\\b"
  else if c = Char.ofNat 9 then "\\t"
  else if c = Char.ofNat 10 then "\\n"
  else if c = Char.ofNat 12 then "\\f"
  else if c = Char.ofNat 13 then "\\r"
  else if c.toNat < 32 then
    "\\u00" ++ String.singleton (hexDigit (c.toNat / 16)) ++
      String.singleton (hexDigit (c.toNat % 16))
  else String.singleton c

/-- A JSON string literal with escapes. -/
def jsonQuote (s : String) : String :=
  "\"" ++ String.join (s.data.map escChar) ++ "\""

mutual
/-- `JSON.stringify(v, null, 2)` (two-space pretty printing), rendered at the
indentation prefix `ind`. -/
def renderJ (ind : String) : JVal → String
  | JVal.jstr s => jsonQuote s
  | JVal.jnum n => toString n
  | JVal.jobj JFields.fnil => "\x7b\x7d"
  | JVal.jobj (JFields.fcons k v rest) =>
    "\x7b\n" ++ renderFields (ind ++ "  ") (JFields.fcons k v rest) ++ "\n" ++ ind ++ "\x7d"
/-- Field lines of a pretty-printed object, each indented by `ind`. -/
def renderFields (ind : String) : JFields → String
  | JFields.fnil => ""
  | JFields.fcons k v JFields.fnil => ind ++ jsonQuote k ++ ": " ++ renderJ ind v
  | JFields.fcons k v (JFields.fcons k2 v2 rest) =>
    ind ++ jsonQuote k ++ ": " ++ renderJ ind v ++ ",\n" ++
      renderFields ind (JFields.fcons k2 v2 rest)
end

/-- Serialize a JSON value exactly as `JSON.stringify(value, null, 2)`. -/
def jsonStringify2 (v : JVal) : String := renderJ "" v

/-- Optional object field: `JSON.stringify` drops fields whose value is
`undefined`, so a `none` contributes no field at all. -/
def optStrField (k : String) (v : Option String) : List (String × JVal) :=
  match v with
  | some s => [(k, JVal.jstr s)]
  | none => []

/-- A dependency map as a JSON object of string values. -/
def depsJson (deps : List (String × String)) : JVal :=
  JVal.jobj (fieldsOfList (deps.map (fun q => (q.1, JVal.jstr q.2))))

/-- One lockfile `packages` entry as JSON, fields in source literal order. -/
def lockPkgEntryJson (e : LockPkgEntry) : JVal :=
  JVal.jobj (fieldsOfList
    (optStrField "version" e.version ++ optStrField "resolved" e.resolved ++
     [("integrity", JVal.jstr e.integrity), ("dependencies", depsJson e.dependencies)]))

/-- The whole lockfile as JSON, fields in source literal order; `undefined`
values in the `dependencies` map are dropped by `JSON.stringify`. -/
def lockfileJson (lf : Lockfile) : JVal :=
  JVal.jobj (fieldsOfList
    [("name", JVal.jstr lf.name),
     ("version", JVal.jstr lf.version),
     ("lockfileVersion", JVal.jnum lf.lockfileVersion),
     ("packages", JVal.jobj (fieldsOfList
        (lf.packages.map (fun p => (p.1, lockPkgEntryJson p.2))))),
     ("dependencies", JVal.jobj (fieldsOfList
        (lf.dependencies.filterMap (fun q => q.2.map (fun v => (q.1, JVal.jstr v))))))])

/-- The exact bytes written to `package-lock.json` (lines 79-82):
`JSON.stringify(lockfile, null, 2)`. -/
def serializeLockfile (lf : Lockfile) : String :=
  jsonStringify2 (lockfileJson lf)

/-- `mangleName` (lines 273-276): replace characters outside `[a-zA-Z0-9_$]`
with an underscore. -/
def mangleName (name : String) : String :=
  name.map (fun c => if c.isAlphanum || c = Char.ofNat 95 || c = Char.ofNat 36 then c
    else Char.ofNat 95)

/-- An ASCII apostrophe, used inside generated JavaScript text. -/
def sQuote : String := String.singleton (Char.ofNat 39)

/-- `generateIndexJS` (lines 247-271): the synthesized entry module.  A
missing `name`/`version` would interpolate as the string `undefined` in the
template literal. -/
def generateIndexJS (packageData : PackageData) : String :=
  let deps := String.intercalate "\n"
    (packageData.dependencies.map (fun q =>
      "  const " ++ mangleName q.1 ++ " = require(" ++ sQuote ++ q.1 ++ sQuote ++ ");"))
  let exps := String.intercalate ", "
    (packageData.dependencies.map (fun q => "  " ++ mangleName q.1))
  ("\n// ATiQ WebContainer Virtual Package: " ++ packageData.name.getD "undefined" ++
   "@" ++ packageData.version.getD "undefined" ++
   "\n// Generated automatically - do not edit\n\n" ++ deps ++
   "\n\nmodule.exports = \x7b\n" ++ exps ++ "\n\x7d;\n\n" ++
   "// Default export if main is not specified\n" ++
   "if (typeof module !== " ++ sQuote ++ "undefined" ++ sQuote ++
   " && module.exports) \x7b\n  module.exports.default = module.exports;\n\x7d\n    ").trim

/-- A parsed `package.json` manifest, projected to the fields the package
manager reads.  A missing map is `none` (the JS property is `undefined`). -/
structure Manifest where
  dependencies : Option (List (String × String))
  devDependencies : Option (List (String × String))
deriving DecidableEq, Repr

/-- A file-system value: raw file bytes, a directory marker created by
`mkdir`, or a file whose bytes are the JSON encoding of a manifest.
(`manifestFile m` stands for any stored bytes that `JSON.parse` turns into
the manifest `m`; files this module itself writes are kept as raw bytes,
and no claim re-reads them as manifests.) -/
inductive FsVal where
  | bytes : String → FsVal
  | manifestFile : Manifest → FsVal
  | dir : FsVal
deriving DecidableEq, Repr

/-- The virtual file system consumed through `FileSystemContract`, as a flat
path-keyed store. -/
abbrev FS : Type := List (String × FsVal)

/-- Lines 49-54: read and parse `package.json`, with every failure (missing
file, unreadable path, invalid JSON) collapsing to `null`. -/
def readManifest (fs : FS) (path : String) : Option Manifest :=
  match lookupA fs path with
  | some (FsVal.manifestFile m) => some m
  | _ => none

/-- `extractDependencies` (lines 105-121). -/
def extractDependencies (packageJson : Option Manifest) (dev : Bool) : List String :=
  match packageJson with
  | none => []
  | some pj =>
    (match pj.dependencies with
     | some d => d.map Prod.fst
     | none => []) ++
    (if dev then
       match pj.devDependencies with
       | some d => d.map Prod.fst
       | none => []
     else [])

/-- The virtual `package.json` written for one installed package
(lines 225-231).  The resolver never sets `main` or `exports` on
`packageData`, so `packageData.main || ...index.js...` is always the default
and `packageData.exports || \x7b\x7d` is always the empty object. -/
def virtualPkgJson (packageData : PackageData) : JVal :=
  JVal.jobj (fieldsOfList
    (optStrField "name" packageData.name ++ optStrField "version" packageData.version ++
     [("main", JVal.jstr "index.js"), ("exports", JVal.jobj JFields.fnil),
      ("dependencies", depsJson packageData.dependencies)]))

/-- `createVirtualNodeModules` (lines 211-245): create the `node_modules`
directory, then for each resolved package a directory, a `package.json` and a
generated `index.js`. -/
def createVirtualNodeModules (cwd : String) (fs : FS) (resolvedGraph : Graph) : FS :=
  let nodeModulesPath := cwd ++ "/node_modules"
  resolvedGraph.foldl
    (fun acc p =>
      let packagePath := nodeModulesPath ++ "/" ++ p.1
      let acc1 := setA acc packagePath FsVal.dir
      let acc2 := setA acc1 (packagePath ++ "/package.json")
        (FsVal.bytes (jsonStringify2 (virtualPkgJson p.2)))
      setA acc2 (packagePath ++ "/index.js") (FsVal.bytes (generateIndexJS p.2)))
    (setA fs nodeModulesPath FsVal.dir)

/-- `getCacheHitCount` (lines 315-323): how many graph keys are present in
the (post-resolution) cache, valid or not. -/
def getCacheHitCount (cache : Cache) (resolvedGraph : Graph) : Nat :=
  (keysA resolvedGraph).countP (fun k => (lookupA cache k).isSome)

/-- The `metadata` field of a successful install result (lines 88-92). -/
structure InstallMeta where
  packages : Nat
  resolved : Nat
  fromCache : Nat
deriving DecidableEq, Repr

/-- The result object of `install` (lines 84-102). -/
structure InstallResult where
  success : Bool
  installed : List String
  duration : Nat
  metadata : Option InstallMeta
  error : Option String
deriving DecidableEq, Repr

/-- Options accepted by `install` (lines 37-42).  The declared `lockfile`
option is never read by the source, so it is omitted. -/
structure InstallOptions where
  cwd : Option String
  packages : Option (List String)
  dev : Bool
deriving DecidableEq, Repr

/-- `install` (lines 37-103).  The whole body sits inside a `try` whose only
reachable throw in this embedding is the no-manifest/no-packages check
(`String(error)` of that `Error` prints with the `Error: ` prefix); file
writes and the resolver never throw.  Note two consequences of
`Object.keys(resolvedGraph)` where `resolvedGraph` is a JS `Map`: a `Map`
has no own enumerable properties, so `installed` is `[]` and
`metadata.resolved` is `0` on the non-trivial success path.  `duration` is
`0` in the single-instant clock model. -/
def install (reg : Registry) (now : Nat) (fs : FS) (cache : Cache)
    (opts : InstallOptions) : InstallResult × FS × Cache :=
  let cwd := match opts.cwd with
    | some c => if c.isEmpty then "/" else c
    | none => "/"
  let packageJson := readManifest fs (cwd ++ "/package.json")
  if packageJson.isNone && opts.packages.isNone then
    ({ success := false, installed := [], duration := 0, metadata := none,
       error := some "Error: No package.json found and no packages specified" }, fs, cache)
  else
    let packages := match opts.packages with
      | some ps => ps
      | none => extractDependencies packageJson opts.dev
    if packages.isEmpty then
      ({ success := true, installed := [], duration := 0, metadata := none,
         error := none }, fs, cache)
    else
      let rc := resolveDependencies reg now cache packages
      let resolvedGraph := rc.1
      let cache' := rc.2
      let fs1 := createVirtualNodeModules cwd fs resolvedGraph
      let lockfile := generateLockfile resolvedGraph
      let fs2 := setA fs1 (cwd ++ "/package-lock.json")
        (FsVal.bytes (serializeLockfile lockfile))
      ({ success := true,
         installed := [],
         duration := 0,
         metadata := some
           { packages := packages.length,
             resolved := 0,
             fromCache := getCacheHitCount cache' resolvedGraph },
         error := none }, fs2, cache')

/-- A name that does not collide with the `metadata:`-prefixed cache-key
namespace of `fetchPackageMetadata` (npm names cannot contain `:`; a package
literally named `metadata:x` would clobber the metadata cache of `x`). -/
def cleanN (n : String) : Bool :=
  !(("metadata:".data).isPrefixOf n.data)

/-- Every dependency name declared anywhere in the registry is clean. -/
def cleanRegistry (reg : Registry) : Bool :=
  reg.all (fun p => p.2.versions.all (fun q => q.2.dependencies.all (fun d => cleanN d.1)))

/-- A name the registry alone can resolve: metadata is served and the chosen
latest version exists in its `versions` map. -/
def regResolvable (reg : Registry) (n : String) : Bool :=
  match lookupA reg n with
  | some m => (lookupA m.versions (chooseVersion m)).isSome
  | none => false

/-- Dependency names the registry declares for `n`'s chosen version. -/
def regDepNames (reg : Registry) (n : String) : List String :=
  match lookupA reg n with
  | some m =>
    match lookupA m.versions (chooseVersion m) with
    | some vr => vr.dependencies.map Prod.fst
    | none => []
  | none => []

/-- Invariant tying a running cache back to the initial cache `cache0`: every
raw-metadata payload either survives untouched from `cache0` or was fetched
from the registry during this resolution. -/
def metaInv (cache0 : Cache) (reg : Registry) (cache : Cache) : Prop :=
  ∀ k e, lookupA cache k = some e →
    ∀ m, e.data = CacheData.metaBytes m →
      lookupA cache0 k = some e ∨ ∃ j, k = "metadata:" ++ j ∧ lookupA reg j = some m

/-- Termination measure of the resolver loop: queue length plus the two
potentials of the not-yet-visited names. -/
def loopMeasure (reg : Registry) (cache0 : Cache) (queue visited : List String) : Nat :=
  queue.length + potReg reg visited + potInit cache0 visited

/-- State invariant of a resolution that starts from an empty cache with
clean names: queued names stay clean, cache keys touching a clean unvisited
name are still absent, every visited resolvable name is already in the
graph, every graph key is resolvable, and every graph value is a
well-formed `packageData` (version present, no integrity). -/
structure CleanState (reg : Registry) (queue visited : List String)
    (resolved : Graph) (cache : Cache) : Prop where
  queueClean : ∀ n ∈ queue, cleanN n = true
  freshBare : ∀ n, cleanN n = true → n ∉ visited → lookupA cache n = none
  freshMeta : ∀ n, cleanN n = true → n ∉ visited → lookupA cache ("metadata:" ++ n) = none
  visitedResolved : ∀ n ∈ visited, regResolvable reg n = true → n ∈ keysA resolved
  resolvedResolvable : ∀ n ∈ keysA resolved, regResolvable reg n = true
  valuesGood : ∀ p ∈ resolved, p.2.version.isSome = true ∧ p.2.integrity = none

/-- Every `packageData` object stored in the cache has no `integrity` field —
true of every cache state this module can ever produce, since the only
writer of object payloads is the resolver (line 169) and its literal has no
`integrity` property. -/
def objIntegrityNone (cache : Cache) : Prop :=
  ∀ k e p, lookupA cache k = some e → e.data = CacheData.obj p → p.integrity = none

/-- Example registry for the spec scenario: `pkg-a` depends on `pkg-b`,
`pkg-b` depends on `pkg-c`, `pkg-c` has no dependencies. -/
def regABC : Registry :=
  [("pkg-a",
    { distTagLatest := some "1.0.0",
      versions := [("1.0.0",
        { dependencies := [("pkg-b", "^1.0.0")],
          tarball := some "https://registry.npmjs.org/pkg-a/-/pkg-a-1.0.0.tgz" })] }),
   ("pkg-b",
    { distTagLatest := some "1.2.0",
      versions := [("1.2.0",
        { dependencies := [("pkg-c", "^2.0.0")],
          tarball := some "https://registry.npmjs.org/pkg-b/-/pkg-b-1.2.0.tgz" })] }),
   ("pkg-c",
    { distTagLatest := some "2.0.0",
      versions := [("2.0.0",
        { dependencies := [],
          tarball := some "https://registry.npmjs.org/pkg-c/-/pkg-c-2.0.0.tgz" })] })]

/-- Example registry with a dependency cycle `pkg-a -> pkg-b -> pkg-a`. -/
def regCycle : Registry :=
  [("pkg-a",
    { distTagLatest := some "1.0.0",
      versions := [("1.0.0",
        { dependencies := [("pkg-b", "^1.0.0")],
          tarball := some "https://registry.npmjs.org/pkg-a/-/pkg-a-1.0.0.tgz" })] }),
   ("pkg-b",
    { distTagLatest := some "1.0.0",
      versions := [("1.0.0",
        { dependencies := [("pkg-a", "^1.0.0")],
          tarball := some "https://registry.npmjs.org/pkg-b/-/pkg-b-1.0.0.tgz" })] })]

/-- Two concrete resolved packages used to exhibit insertion-order dependence
of the serialized lockfile. -/
def pdX : PackageData :=
  { name := some "pkg-x", version := some "1.0.0",
    tarball := some "https://registry.npmjs.org/pkg-x/-/pkg-x-1.0.0.tgz",
    dependencies := [], resolvedAt := some 0, integrity := none }

/-- Second resolved package of the order-dependence example. -/
def pdY : PackageData :=
  { name := some "pkg-y", version := some "2.0.0",
    tarball := some "https://registry.npmjs.org/pkg-y/-/pkg-y-2.0.0.tgz",
    dependencies := [], resolvedAt := some 0, integrity := none }

/-- The same two resolution-graph entries in one insertion order... -/
def gXY : Graph := [("pkg-x", pdX), ("pkg-y", pdY)]

/-- ...and in the other insertion order. -/
def gYX : Graph := [("pkg-y", pdY), ("pkg-x", pdX)]

/-- Example registry metadata for the cache-hit scenario. -/
def mLP : Metadata :=
  { distTagLatest := some "1.3.0",
    versions := [("1.3.0",
      { dependencies := [],
        tarball := some "https://registry.npmjs.org/left-pad/-/left-pad-1.3.0.tgz" })] }

/-- A cache holding one unexpired raw-metadata entry for `left-pad`. -/
def cacheLP : Cache :=
  [("metadata:left-pad",
    { key := "metadata:left-pad", data := CacheData.metaBytes mLP, timestamp := 5,
      expires := some 500000 })]

/-! Basic association-list lemmas. -/

theorem lookupA_setA_self {α : Type} (l : List (String × α)) (k : String) (v : α) :
    lookupA (setA l k v) k = some v := by
  induction l with
  | nil => simp [setA, lookupA]
  | cons p rest ih =>
    by_cases h : p.1 = k
    · simp [setA, h, lookupA]
    · simp [setA, h, lookupA, ih]

theorem lookupA_setA_ne {α : Type} (l : List (String × α)) (k k' : String) (v : α)
    (h : k' ≠ k) : lookupA (setA l k v) k' = lookupA l k' := by
  have h2 : k ≠ k' := Ne.symm h
  induction l with
  | nil => simp [setA, lookupA, h2]
  | cons p rest ih =>
    by_cases hp : p.1 = k
    · subst hp
      simp only [setA, if_pos rfl, lookupA, if_neg h2]
    · simp only [setA, if_neg hp, lookupA]
      by_cases hk : p.1 = k'
      · simp [hk]
      · simp [hk, ih]

theorem keysA_setA_of_mem {α : Type} (l : List (String × α)) (k : String) (v : α)
    (h : k ∈ keysA l) : keysA (setA l k v) = keysA l := by
  induction l with
  | nil => simp [keysA] at h
  | cons p rest ih =>
    by_cases hp : p.1 = k
    · simp [setA, hp, keysA]
    · have h' : k ∈ keysA rest := by
        simp only [keysA, List.map_cons, List.mem_cons] at h
        rcases h with h | h
        · exact absurd h.symm hp
        · exact h
      have := ih h'
      simp only [setA, if_neg hp, keysA, List.map_cons]
      rw [show List.map Prod.fst (setA rest k v) = keysA (setA rest k v) from rfl, this]
      rfl

theorem keysA_setA_of_not_mem {α : Type} (l : List (String × α)) (k : String) (v : α)
    (h : k ∉ keysA l) : keysA (setA l k v) = keysA l ++ [k] := by
  induction l with
  | nil => simp [setA, keysA]
  | cons p rest ih =>
    simp only [keysA, List.map_cons, List.mem_cons] at h
    push_neg at h
    have hp : ¬ p.1 = k := fun hh => h.1 hh.symm
    have h2 : k ∉ keysA rest := h.2
    have := ih h2
    simp only [setA, if_neg hp, keysA, List.map_cons]
    rw [show List.map Prod.fst (setA rest k v) = keysA (setA rest k v) from rfl, this]
    rfl

theorem nodup_keysA_setA {α : Type} (l : List (String × α)) (k : String) (v : α)
    (h : (keysA l).Nodup) : (keysA (setA l k v)).Nodup := by
  by_cases hk : k ∈ keysA l
  · rw [keysA_setA_of_mem l k v hk]; exact h
  · rw [keysA_setA_of_not_mem l k v hk]
    rw [List.nodup_append]
    refine ⟨h, List.nodup_singleton k, ?_⟩
    intro x hx hxk
    simp only [List.mem_singleton] at hxk
    exact hk (hxk ▸ hx)

theorem mem_keysA_setA {α : Type} (l : List (String × α)) (k x : String) (v : α) :
    x ∈ keysA (setA l k v) ↔ x ∈ keysA l ∨ x = k := by
  by_cases hk : k ∈ keysA l
  · rw [keysA_setA_of_mem l k v hk]
    constructor
    · exact Or.inl
    · intro h
      rcases h with h | h
      · exact h
      · exact h ▸ hk
  · rw [keysA_setA_of_not_mem l k v hk]
    simp [List.mem_append]

theorem lookupA_mem_keysA {α : Type} (l : List (String × α)) (k : String) (v : α)
    (h : lookupA l k = some v) : k ∈ keysA l := by
  induction l with
  | nil => simp [lookupA] at h
  | cons p rest ih =>
    by_cases hp : p.1 = k
    · simp [keysA, hp.symm]
    · simp only [lookupA, if_neg hp] at h
      simp only [keysA, List.map_cons, List.mem_cons]
      exact Or.inr (ih h)

theorem lookupA_isSome_of_mem {α : Type} (l : List (String × α)) (k : String)
    (h : k ∈ keysA l) : (lookupA l k).isSome := by
  induction l with
  | nil => simp [keysA] at h
  | cons p rest ih =>
    by_cases hp : p.1 = k
    · simp [lookupA, hp]
    · simp only [keysA, List.map_cons, List.mem_cons] at h
      rcases h with h | h
      · exact absurd h.symm hp
      · simp [lookupA, hp, ih h]

theorem mem_of_mem_values_setA {α : Type} (l : List (String × α)) (k : String) (v : α)
    (p : String × α) (h : p ∈ setA l k v) : p ∈ l ∨ p = (k, v) := by
  induction l with
  | nil => simpa [setA] using h
  | cons q rest ih =>
    by_cases hq : q.1 = k
    · simp only [setA, if_pos hq, List.mem_cons] at h
      rcases h with h | h
      · exact Or.inr h
      · exact Or.inl (List.mem_cons_of_mem _ h)
    · simp only [setA, if_neg hq, List.mem_cons] at h
      rcases h with h | h
      · exact Or.inl (h ▸ List.mem_cons_self _ _)
      · rcases ih h with h2 | h2
        · exact Or.inl (List.mem_cons_of_mem _ h2)
        · exact Or.inr h2

/-! Lemmas about the termination potentials. -/

theorem metaKey_inj (a b : String) (h : "metadata:" ++ a = "metadata:" ++ b) : a = b := by
  have h2 : ("metadata:" ++ a).data = ("metadata:" ++ b).data := congrArg String.data h
  simp only [String.data_append] at h2
  exact String.ext (List.append_cancel_left h2)

theorem potReg_mono (reg : Registry) (visited : List String) (p : String) :
    potReg reg (p :: visited) ≤ potReg reg visited := by
  apply Finset.sum_le_sum_of_subset
  intro n hn
  simp only [Finset.mem_filter, List.mem_cons] at *
  exact ⟨hn.1, fun h => hn.2 (Or.inr h)⟩

theorem potReg_step (reg : Registry) (visited : List String) (p : String)
    (hp : p ∈ (reg.map Prod.fst).toFinset) (hv : p ∉ visited) :
    potReg reg visited = potReg reg (p :: visited) + (1 + regDepsLen reg p) := by
  have hmem : p ∈ ((reg.map Prod.fst).toFinset).filter (fun n => n ∉ visited) := by
    simp only [Finset.mem_filter]
    exact ⟨hp, hv⟩
  have herase : ((reg.map Prod.fst).toFinset).filter (fun n => n ∉ p :: visited) =
      (((reg.map Prod.fst).toFinset).filter (fun n => n ∉ visited)).erase p := by
    ext n
    simp only [Finset.mem_filter, Finset.mem_erase, List.mem_cons]
    constructor
    · intro h
      push_neg at h
      exact ⟨h.2.1, h.1, h.2.2⟩
    · intro h
      refine ⟨h.2.1, ?_⟩
      push_neg
      exact ⟨h.1, h.2.2⟩
  rw [potReg, potReg, herase,
    ← Finset.sum_erase_add _ _ hmem]

theorem potInit_mono (cache0 : Cache) (visited : List String) (p : String) :
    potInit cache0 (p :: visited) ≤ potInit cache0 visited := by
  apply Finset.sum_le_sum_of_subset
  intro k hk
  simp only [Finset.mem_filter, List.mem_cons] at *
  exact ⟨hk.1, fun v hv => hk.2 v (Or.inr hv)⟩

theorem potInit_step (cache0 : Cache) (visited : List String) (p : String)
    (hp : ("metadata:" ++ p) ∈ (cache0.map Prod.fst).toFinset) (hv : p ∉ visited) :
    potInit cache0 visited =
      potInit cache0 (p :: visited) + (1 + initMetaLen cache0 ("metadata:" ++ p)) := by
  have hmem : ("metadata:" ++ p) ∈ ((cache0.map Prod.fst).toFinset).filter
      (fun k => ∀ v ∈ visited, k ≠ "metadata:" ++ v) := by
    simp only [Finset.mem_filter]
    refine ⟨hp, fun v hvv he => ?_⟩
    exact hv (metaKey_inj p v he ▸ hvv)
  have herase : ((cache0.map Prod.fst).toFinset).filter
        (fun k => ∀ v ∈ p :: visited, k ≠ "metadata:" ++ v) =
      (((cache0.map Prod.fst).toFinset).filter
        (fun k => ∀ v ∈ visited, k ≠ "metadata:" ++ v)).erase ("metadata:" ++ p) := by
    ext k
    simp only [Finset.mem_filter, Finset.mem_erase, List.mem_cons]
    constructor
    · intro h
      exact ⟨h.2 p (Or.inl rfl), h.1, fun v hv2 => h.2 v (Or.inr hv2)⟩
    · intro h
      refine ⟨h.2.1, fun v hv2 => ?_⟩
      rcases hv2 with hv2 | hv2
      · exact hv2 ▸ h.1
      · exact h.2.2 v hv2
  rw [potInit, potInit, herase,
    ← Finset.sum_erase_add _ _ hmem]

/-! Cache-provenance invariant lemmas. -/

theorem metaInv_refl (reg : Registry) (cache : Cache) : metaInv cache reg cache := by
  intro k e hk m _
  exact Or.inl hk

theorem metaInv_fetch (cache0 : Cache) (reg : Registry) (now : Nat) (cache : Cache)
    (name : String) (res : Except String Metadata) (cache' : Cache)
    (hinv : metaInv cache0 reg cache)
    (h : fetchPackageMetadata reg now cache name = (res, cache')) :
    metaInv cache0 reg cache' := by
  have hnet : ∀ m : Metadata, lookupA reg name = some m →
      metaInv cache0 reg (setA cache ("metadata:" ++ name)
        { key := "metadata:" ++ name, data := CacheData.metaBytes m, timestamp := now,
          expires := some (now + 5 * 60 * 1000) }) := by
    intro m hm k e hk m' hdata
    by_cases hkey : k = "metadata:" ++ name
    · subst hkey
      rw [lookupA_setA_self] at hk
      cases hk
      cases hdata
      exact Or.inr ⟨name, rfl, hm⟩
    · rw [lookupA_setA_ne _ _ _ _ hkey] at hk
      exact hinv k e hk m' hdata
  simp only [fetchPackageMetadata] at h
  split at h
  · split at h
    · split at h
      · cases h
        exact hinv
      · cases h
        exact hinv
    · split at h
      · cases h
        exact hinv
      · next m h2 =>
        cases h
        exact hnet m h2
  · split at h
    · cases h
      exact hinv
    · next m h2 =>
      cases h
      exact hnet m h2

theorem metaInv_setObj (cache0 : Cache) (reg : Registry) (cache : Cache)
    (pkg : String) (pd : PackageData) (now : Nat)
    (hinv : metaInv cache0 reg cache) :
    metaInv cache0 reg (cachePackageObj cache pkg pd now) := by
  intro k e hk m hdata
  by_cases hkey : k = pkg
  · subst hkey
    rw [cachePackageObj, lookupA_setA_self] at hk
    cases hk
    cases hdata
  · rw [cachePackageObj, lookupA_setA_ne _ _ _ _ hkey] at hk
    exact hinv k e hk m hdata

theorem resolveTry_cache_inv (cache0 : Cache) (reg : Registry) (now : Nat) (cache : Cache)
    (pkg : String) (res : Except String (PackageData × List String)) (cache' : Cache)
    (hinv : metaInv cache0 reg cache)
    (h : resolveTry reg now cache pkg = (res, cache')) :
    metaInv cache0 reg cache' := by
  rw [resolveTry] at h
  rcases h1 : fetchPackageMetadata reg now cache pkg with ⟨fres, fcache⟩
  rw [h1] at h
  have hfc := metaInv_fetch cache0 reg now cache pkg fres fcache hinv h1
  rcases fres with e | metadata
  · cases h
    exact hfc
  · rcases h2 : lookupA metadata.versions (chooseVersion metadata) with _ | vi
    · simp only [h2] at h
      cases h
      exact hfc
    · simp only [h2] at h
      cases h
      exact hfc

theorem resolveTry_ok_bound (cache0 : Cache) (reg : Registry) (now : Nat) (cache : Cache)
    (pkg : String) (pd : PackageData) (deps : List String) (cache' : Cache)
    (hinv : metaInv cache0 reg cache)
    (h : resolveTry reg now cache pkg = (Except.ok (pd, deps), cache')) :
    (pkg ∈ (reg.map Prod.fst).toFinset ∧ deps.length = regDepsLen reg pkg) ∨
    (("metadata:" ++ pkg) ∈ (cache0.map Prod.fst).toFinset ∧
      deps.length = initMetaLen cache0 ("metadata:" ++ pkg)) := by
  rw [resolveTry] at h
  rcases h1 : fetchPackageMetadata reg now cache pkg with ⟨fres, fcache⟩
  rw [h1] at h
  rcases fres with e | metadata
  · cases h
  · rcases h2 : lookupA metadata.versions (chooseVersion metadata) with _ | vi
    · simp only [h2] at h
      cases h
    · simp only [h2] at h
      cases h
      have hlen : (vi.dependencies.map Prod.fst).length = depsLenOfMeta metadata := by
        rw [depsLenOfMeta, h2, List.length_map]
      have hsrc : (lookupA reg pkg = some metadata) ∨
          (∃ e0, lookupA cache0 ("metadata:" ++ pkg) = some e0 ∧
            e0.data = CacheData.metaBytes metadata) := by
        simp only [fetchPackageMetadata] at h1
        split at h1
        · next entry h3 =>
          split at h1
          · next h5 =>
            split at h1
            · next m h6 =>
              cases h1
              rcases hinv ("metadata:" ++ pkg) entry h3 metadata h6 with h7 | ⟨j, hj, hregj⟩
              · exact Or.inr ⟨entry, h7, h6⟩
              · have hjp : j = pkg := (metaKey_inj pkg j hj).symm
                exact Or.inl (hjp ▸ hregj)
            · cases h1
          · next h5 =>
            split at h1
            · cases h1
            · next m h4 =>
              cases h1
              exact Or.inl h4
        · split at h1
          · cases h1
          · next m h4 =>
            cases h1
            exact Or.inl h4
      rcases hsrc with hsrc | ⟨e0, h8, hdata⟩
      · refine Or.inl ⟨List.mem_toFinset.mpr (lookupA_mem_keysA reg pkg metadata hsrc), ?_⟩
        rw [regDepsLen, hsrc, hlen]
      · refine Or.inr ⟨List.mem_toFinset.mpr (lookupA_mem_keysA cache0 _ e0 h8), ?_⟩
        simp only [initMetaLen, h8, hdata, hlen]

/-! Fuel sufficiency: the loop measure strictly decreases at every step, so
the source's unbounded `while` loop always terminates. -/

theorem resolveLoop_isSome (reg : Registry) (cache0 : Cache) (now : Nat) :
    ∀ fuel queue visited resolved cache,
      metaInv cache0 reg cache →
      loopMeasure reg cache0 queue visited ≤ fuel →
      (resolveLoop reg now fuel queue visited resolved cache).isSome := by
  intro fuel
  induction fuel with
  | zero =>
    intro queue visited resolved cache _ hm
    cases queue with
    | nil => simp [resolveLoop]
    | cons p rest =>
      rw [loopMeasure] at hm
      simp [List.length_cons] at hm
  | succ fuel ih =>
    intro queue visited resolved cache hinv hm
    cases queue with
    | nil => simp [resolveLoop]
    | cons pkg rest =>
      rw [loopMeasure, List.length_cons] at hm
      by_cases hv : pkg ∈ visited
      · have hstep : resolveLoop reg now (fuel + 1) (pkg :: rest) visited resolved cache =
            resolveLoop reg now fuel rest visited resolved cache := by
          simp [resolveLoop, hv]
        rw [hstep]
        apply ih rest visited resolved cache hinv
        rw [loopMeasure]
        omega
      · cases hhit : cacheHitData now cache pkg with
        | some d =>
          have hstep : resolveLoop reg now (fuel + 1) (pkg :: rest) visited resolved cache =
              resolveLoop reg now fuel rest (pkg :: visited)
                (setA resolved pkg (dataToPkg d)) cache := by
            simp [resolveLoop, hv, hhit]
          rw [hstep]
          apply ih rest (pkg :: visited) _ cache hinv
          have h1 := potReg_mono reg visited pkg
          have h2 := potInit_mono cache0 visited pkg
          rw [loopMeasure]
          omega
        | none =>
          rcases htry : resolveTry reg now cache pkg with ⟨tres, cache2⟩
          have hinv2 : metaInv cache0 reg cache2 :=
            resolveTry_cache_inv cache0 reg now cache pkg tres cache2 hinv htry
          cases tres with
          | error e =>
            have hstep : resolveLoop reg now (fuel + 1) (pkg :: rest) visited resolved cache =
                resolveLoop reg now fuel rest (pkg :: visited) resolved cache2 := by
              simp [resolveLoop, hv, hhit, htry]
            rw [hstep]
            apply ih rest (pkg :: visited) resolved cache2 hinv2
            have h1 := potReg_mono reg visited pkg
            have h2 := potInit_mono cache0 visited pkg
            rw [loopMeasure]
            omega
          | ok pr =>
            rcases pr with ⟨pd, deps⟩
            have hstep : resolveLoop reg now (fuel + 1) (pkg :: rest) visited resolved cache =
                resolveLoop reg now fuel (rest ++ deps) (pkg :: visited)
                  (setA resolved pkg pd) (cachePackageObj cache2 pkg pd now) := by
              simp [resolveLoop, hv, hhit, htry]
            rw [hstep]
            apply ih (rest ++ deps) (pkg :: visited) _ _
              (metaInv_setObj cache0 reg cache2 pkg pd now hinv2)
            rw [loopMeasure, List.length_append]
            rcases resolveTry_ok_bound cache0 reg now cache pkg pd deps cache2 hinv htry with
              ⟨hmem, hlen⟩ | ⟨hmem, hlen⟩
            · have hst := potReg_step reg visited pkg hmem hv
              have h2 := potInit_mono cache0 visited pkg
              omega
            · have hst := potInit_step cache0 visited pkg hmem hv
              have h1 := potReg_mono reg visited pkg
              omega

/-! Shape lemmas about the resolver loop. -/

theorem resolveLoop_visited_skip (reg : Registry) (now fuel : Nat) (pkg : String)
    (rest visited : List String) (resolved : Graph) (cache : Cache)
    (h : pkg ∈ visited) :
    resolveLoop reg now (fuel + 1) (pkg :: rest) visited resolved cache =
      resolveLoop reg now fuel rest visited resolved cache := by
  simp [resolveLoop, h]

theorem resolveLoop_keys_mono (reg : Registry) (now : Nat) :
    ∀ fuel queue visited resolved cache g vis c',
      resolveLoop reg now fuel queue visited resolved cache = some (g, vis, c') →
      ∀ k ∈ keysA resolved, k ∈ keysA g := by
  intro fuel
  induction fuel with
  | zero =>
    intro queue visited resolved cache g vis c' h
    cases queue with
    | nil =>
      rw [resolveLoop] at h
      cases h
      exact fun k hk => hk
    | cons p rest =>
      rw [resolveLoop] at h
      cases h
  | succ fuel ih =>
    intro queue visited resolved cache g vis c' h
    cases queue with
    | nil =>
      rw [resolveLoop] at h
      cases h
      exact fun k hk => hk
    | cons pkg rest =>
      by_cases hv : pkg ∈ visited
      · rw [resolveLoop_visited_skip reg now fuel pkg rest visited resolved cache hv] at h
        exact ih rest visited resolved cache g vis c' h
      · cases hhit : cacheHitData now cache pkg with
        | some d =>
          rw [show resolveLoop reg now (fuel + 1) (pkg :: rest) visited resolved cache =
              resolveLoop reg now fuel rest (pkg :: visited)
                (setA resolved pkg (dataToPkg d)) cache from by
            simp [resolveLoop, hv, hhit]] at h
          intro k hk
          exact ih rest _ _ cache g vis c' h k ((mem_keysA_setA _ _ _ _).mpr (Or.inl hk))
        | none =>
          rcases htry : resolveTry reg now cache pkg with ⟨tres, cache2⟩
          cases tres with
          | error e =>
            rw [show resolveLoop reg now (fuel + 1) (pkg :: rest) visited resolved cache =
                resolveLoop reg now fuel rest (pkg :: visited) resolved cache2 from by
              simp [resolveLoop, hv, hhit, htry]] at h
            exact ih rest _ resolved cache2 g vis c' h
          | ok pr =>
            rcases pr with ⟨pd, deps⟩
            rw [show resolveLoop reg now (fuel + 1) (pkg :: rest) visited resolved cache =
                resolveLoop reg now fuel (rest ++ deps) (pkg :: visited)
                  (setA resolved pkg pd) (cachePackageObj cache2 pkg pd now) from by
              simp [resolveLoop, hv, hhit, htry]] at h
            intro k hk
            exact ih (rest ++ deps) _ _ _ g vis c' h k
              ((mem_keysA_setA _ _ _ _).mpr (Or.inl hk))

theorem resolveLoop_nodup (reg : Registry) (now : Nat) :
    ∀ fuel queue visited resolved cache g vis c',
      resolveLoop reg now fuel queue visited resolved cache = some (g, vis, c') →
      (∀ k ∈ keysA resolved, k ∈ visited) →
      (keysA resolved).Nodup →
      (keysA g).Nodup ∧ (∀ k ∈ keysA g, k ∈ vis) := by
  intro fuel
  induction fuel with
  | zero =>
    intro queue visited resolved cache g vis c' h hsub hnd
    cases queue with
    | nil =>
      rw [resolveLoop] at h
      cases h
      exact ⟨hnd, hsub⟩
    | cons p rest =>
      rw [resolveLoop] at h
      cases h
  | succ fuel ih =>
    intro queue visited resolved cache g vis c' h hsub hnd
    cases queue with
    | nil =>
      rw [resolveLoop] at h
      cases h
      exact ⟨hnd, hsub⟩
    | cons pkg rest =>
      by_cases hv : pkg ∈ visited
      · rw [resolveLoop_visited_skip reg now fuel pkg rest visited resolved cache hv] at h
        exact ih rest visited resolved cache g vis c' h hsub hnd
      · have hfresh : pkg ∉ keysA resolved := fun hk => hv (hsub pkg hk)
        have hsub' : ∀ x : PackageData, ∀ k ∈ keysA (setA resolved pkg x), k ∈ pkg :: visited := by
          intro x k hk
          rcases (mem_keysA_setA resolved pkg k x).mp hk with hk | hk
          · exact List.mem_cons_of_mem _ (hsub k hk)
          · exact hk ▸ List.mem_cons_self _ _
        have hnd' : ∀ x : PackageData, (keysA (setA resolved pkg x)).Nodup :=
          fun x => nodup_keysA_setA resolved pkg x hnd
        cases hhit : cacheHitData now cache pkg with
        | some d =>
          rw [show resolveLoop reg now (fuel + 1) (pkg :: rest) visited resolved cache =
              resolveLoop reg now fuel rest (pkg :: visited)
                (setA resolved pkg (dataToPkg d)) cache from by
            simp [resolveLoop, hv, hhit]] at h
          exact ih rest _ _ cache g vis c' h (hsub' _) (hnd' _)
        | none =>
          rcases htry : resolveTry reg now cache pkg with ⟨tres, cache2⟩
          cases tres with
          | error e =>
            rw [show resolveLoop reg now (fuel + 1) (pkg :: rest) visited resolved cache =
                resolveLoop reg now fuel rest (pkg :: visited) resolved cache2 from by
              simp [resolveLoop, hv, hhit, htry]] at h
            exact ih rest _ resolved cache2 g vis c' h
              (fun k hk => List.mem_cons_of_mem _ (hsub k hk)) hnd
          | ok pr =>
            rcases pr with ⟨pd, deps⟩
            rw [show resolveLoop reg now (fuel + 1) (pkg :: rest) visited resolved cache =
                resolveLoop reg now fuel (rest ++ deps) (pkg :: visited)
                  (setA resolved pkg pd) (cachePackageObj cache2 pkg pd now) from by
              simp [resolveLoop, hv, hhit, htry]] at h
            exact ih (rest ++ deps) _ _ _ g vis c' h (hsub' _) (hnd' _)

theorem resolveDependencies_isSome (reg : Registry) (now : Nat) (cache : Cache)
    (packages : List String) :
    (resolveLoop reg now (resolveFuel reg cache packages) packages [] [] cache).isSome := by
  apply resolveLoop_isSome reg cache now
  · exact metaInv_refl reg cache
  · rw [loopMeasure, resolveFuel]

/-! Clean-name lemmas. -/

theorem isPrefixOf_append_self (a b : List Char) : a.isPrefixOf (a ++ b) = true := by
  induction a with
  | nil => simp [List.isPrefixOf]
  | cons c rest ih => simp [List.isPrefixOf, ih]

theorem cleanN_ne_metaKey (n : String) (h : cleanN n = true) (x : String) :
    n ≠ "metadata:" ++ x := by
  intro he
  rw [cleanN] at h
  have hd : n.data = "metadata:".data ++ x.data := by
    rw [he, String.data_append]
  rw [hd, isPrefixOf_append_self] at h
  simp at h

theorem lookupA_mem_pairs {α : Type} (l : List (String × α)) (k : String) (v : α)
    (h : lookupA l k = some v) : (k, v) ∈ l := by
  induction l with
  | nil => simp [lookupA] at h
  | cons p rest ih =>
    by_cases hp : p.1 = k
    · rw [lookupA, if_pos hp] at h
      cases h
      subst hp
      exact List.mem_cons_self _ _
    · rw [lookupA, if_neg hp] at h
      exact List.mem_cons_of_mem _ (ih h)

theorem cleanRegistry_deps (reg : Registry) (pkg ver : String) (m : Metadata)
    (vi : VersionRecord) (hreg : cleanRegistry reg = true)
    (hm : lookupA reg pkg = some m) (hvi : lookupA m.versions ver = some vi) :
    ∀ d ∈ vi.dependencies, cleanN d.1 = true := by
  intro d hd
  rw [cleanRegistry, List.all_eq_true] at hreg
  have h1 := hreg (pkg, m) (lookupA_mem_pairs reg pkg m hm)
  rw [List.all_eq_true] at h1
  have h2 := h1 (ver, vi) (lookupA_mem_pairs m.versions ver vi hvi)
  rw [List.all_eq_true] at h2
  exact h2 d hd

theorem cacheHitData_none (now : Nat) (cache : Cache) (pkg : String)
    (h : lookupA cache pkg = none) : cacheHitData now cache pkg = none := by
  rw [cacheHitData, h]

theorem cacheHitData_some_inv (now : Nat) (cache : Cache) (pkg : String) (d : CacheData)
    (h : cacheHitData now cache pkg = some d) :
    ∃ e, lookupA cache pkg = some e ∧ e.data = d := by
  rw [cacheHitData] at h
  rcases h1 : lookupA cache pkg with _ | e
  · simp only [h1] at h
    exact Option.noConfusion h
  · simp only [h1] at h
    by_cases h2 : isCacheValid now e
    · rw [if_pos h2] at h
      cases h
      exact ⟨e, rfl, rfl⟩
    · rw [if_neg h2] at h
      cases h

theorem resolveTry_net_inv (reg : Registry) (now : Nat) (cache : Cache) (pkg : String)
    (res : Except String (PackageData × List String)) (cache' : Cache)
    (hm : lookupA cache ("metadata:" ++ pkg) = none)
    (h : resolveTry reg now cache pkg = (res, cache')) :
    (lookupA reg pkg = none ∧ cache' = cache ∧ ∃ e, res = Except.error e) ∨
    (∃ m, lookupA reg pkg = some m ∧
      cache' = setA cache ("metadata:" ++ pkg)
        { key := "metadata:" ++ pkg, data := CacheData.metaBytes m, timestamp := now,
          expires := some (now + 5 * 60 * 1000) } ∧
      ((∃ vi, lookupA m.versions (chooseVersion m) = some vi ∧
          res = Except.ok
            ({ name := some pkg, version := some (chooseVersion m), tarball := vi.tarball,
               dependencies := vi.dependencies, resolvedAt := some now, integrity := none },
             vi.dependencies.map Prod.fst)) ∨
        (lookupA m.versions (chooseVersion m) = none ∧ ∃ e, res = Except.error e))) := by
  rcases hr : lookupA reg pkg with _ | m
  · simp only [resolveTry, fetchPackageMetadata, hm, hr] at h
    cases h
    exact Or.inl ⟨rfl, rfl, _, rfl⟩
  · rcases hv : lookupA m.versions (chooseVersion m) with _ | vi
    · simp only [resolveTry, fetchPackageMetadata, hm, hr, hv] at h
      cases h
      exact Or.inr ⟨m, rfl, rfl, Or.inr ⟨hv, _, rfl⟩⟩
    · simp only [resolveTry, fetchPackageMetadata, hm, hr, hv] at h
      cases h
      exact Or.inr ⟨m, rfl, rfl, Or.inl ⟨vi, hv, rfl⟩⟩

/-! The clean-run theorem: starting from clean requests and a cache with no
keys for them, the final graph contains exactly resolvable names, every
request that the registry can resolve, and only well-formed values. -/

theorem resolveLoop_clean_run (reg : Registry) (now : Nat) (hreg : cleanRegistry reg = true) :
    ∀ fuel queue visited resolved cache g vis c',
      resolveLoop reg now fuel queue visited resolved cache = some (g, vis, c') →
      CleanState reg queue visited resolved cache →
      (∀ n ∈ queue, regResolvable reg n = true → n ∈ keysA g) ∧
      (∀ n ∈ keysA g, regResolvable reg n = true) ∧
      (∀ p ∈ g, p.2.version.isSome = true ∧ p.2.integrity = none) := by
  intro fuel
  induction fuel with
  | zero =>
    intro queue visited resolved cache g vis c' h hcs
    cases queue with
    | nil =>
      rw [resolveLoop] at h
      cases h
      exact ⟨fun n hn => absurd hn (List.not_mem_nil n), hcs.resolvedResolvable, hcs.valuesGood⟩
    | cons p rest =>
      rw [resolveLoop] at h
      cases h
  | succ fuel ih =>
    intro queue visited resolved cache g vis c' h hcs
    cases queue with
    | nil =>
      rw [resolveLoop] at h
      cases h
      exact ⟨fun n hn => absurd hn (List.not_mem_nil n), hcs.resolvedResolvable, hcs.valuesGood⟩
    | cons pkg rest =>
      have hpkgc : cleanN pkg = true := hcs.queueClean pkg (List.mem_cons_self _ _)
      have hrestc : ∀ n ∈ rest, cleanN n = true :=
        fun n hn => hcs.queueClean n (List.mem_cons_of_mem _ hn)
      by_cases hv : pkg ∈ visited
      · rw [resolveLoop_visited_skip reg now fuel pkg rest visited resolved cache hv] at h
        have hcs' : CleanState reg rest visited resolved cache :=
          { queueClean := hrestc
            freshBare := hcs.freshBare
            freshMeta := hcs.freshMeta
            visitedResolved := hcs.visitedResolved
            resolvedResolvable := hcs.resolvedResolvable
            valuesGood := hcs.valuesGood }
        obtain ⟨c1, c2, c3⟩ := ih rest visited resolved cache g vis c' h hcs'
        refine ⟨?_, c2, c3⟩
        intro n hn hres
        rcases List.mem_cons.mp hn with hn | hn
        · subst hn
          exact resolveLoop_keys_mono reg now fuel rest visited resolved cache g vis c' h n
            (hcs.visitedResolved n hv hres)
        · exact c1 n hn hres
      · have hbare : lookupA cache pkg = none := hcs.freshBare pkg hpkgc hv
        have hmeta : lookupA cache ("metadata:" ++ pkg) = none := hcs.freshMeta pkg hpkgc hv
        have hhit : cacheHitData now cache pkg = none := cacheHitData_none now cache pkg hbare
        rcases htry : resolveTry reg now cache pkg with ⟨tres, cache2⟩
        rcases resolveTry_net_inv reg now cache pkg tres cache2 hmeta htry with
          ⟨hr, hc2, e, hres_err⟩ | ⟨m, hr, hc2, hrest2⟩
        · subst hres_err
          rw [hc2] at htry
          rw [show resolveLoop reg now (fuel + 1) (pkg :: rest) visited resolved cache =
              resolveLoop reg now fuel rest (pkg :: visited) resolved cache from by
            simp [resolveLoop, hv, hhit, htry]] at h
          have hpkg_not : regResolvable reg pkg = false := by simp [regResolvable, hr]
          have hcs' : CleanState reg rest (pkg :: visited) resolved cache :=
            { queueClean := hrestc
              freshBare := fun n hc hnv =>
                hcs.freshBare n hc (fun hm2 => hnv (List.mem_cons_of_mem _ hm2))
              freshMeta := fun n hc hnv =>
                hcs.freshMeta n hc (fun hm2 => hnv (List.mem_cons_of_mem _ hm2))
              visitedResolved := by
                intro n hn hres
                rcases List.mem_cons.mp hn with hn | hn
                · subst hn
                  rw [hpkg_not] at hres
                  cases hres
                · exact hcs.visitedResolved n hn hres
              resolvedResolvable := hcs.resolvedResolvable
              valuesGood := hcs.valuesGood }
          obtain ⟨c1, c2, c3⟩ := ih rest _ resolved cache g vis c' h hcs'
          refine ⟨?_, c2, c3⟩
          intro n hn hres
          rcases List.mem_cons.mp hn with hn | hn
          · subst hn
            rw [hpkg_not] at hres
            cases hres
          · exact c1 n hn hres
        · rcases hrest2 with ⟨vi, hvi, hres_ok⟩ | ⟨hvi_none, e, hres_err⟩
          · subst hres_ok
            subst hc2
            rw [show resolveLoop reg now (fuel + 1) (pkg :: rest) visited resolved cache =
                resolveLoop reg now fuel
                  (rest ++ vi.dependencies.map Prod.fst) (pkg :: visited)
                  (setA resolved pkg
                    { name := some pkg, version := some (chooseVersion m),
                      tarball := vi.tarball, dependencies := vi.dependencies,
                      resolvedAt := some now, integrity := none })
                  (cachePackageObj
                    (setA cache ("metadata:" ++ pkg)
                      { key := "metadata:" ++ pkg, data := CacheData.metaBytes m,
                        timestamp := now, expires := some (now + 5 * 60 * 1000) })
                    pkg
                    { name := some pkg, version := some (chooseVersion m),
                      tarball := vi.tarball, dependencies := vi.dependencies,
                      resolvedAt := some now, integrity := none } now) from by
              simp [resolveLoop, hv, hhit, htry]] at h
            have hpkg_res : regResolvable reg pkg = true := by
              simp [regResolvable, hr, hvi]
            have hkey1 : ∀ n, cleanN n = true → n ≠ pkg →
                lookupA (cachePackageObj
                  (setA cache ("metadata:" ++ pkg)
                    { key := "metadata:" ++ pkg, data := CacheData.metaBytes m,
                      timestamp := now, expires := some (now + 5 * 60 * 1000) })
                  pkg
                  { name := some pkg, version := some (chooseVersion m),
                    tarball := vi.tarball, dependencies := vi.dependencies,
                    resolvedAt := some now, integrity := none } now) n = lookupA cache n := by
              intro n hc hne
              rw [cachePackageObj, lookupA_setA_ne _ _ _ _ hne,
                lookupA_setA_ne _ _ _ _ (cleanN_ne_metaKey n hc pkg)]
            have hkey2 : ∀ n, n ≠ pkg →
                lookupA (cachePackageObj
                  (setA cache ("metadata:" ++ pkg)
                    { key := "metadata:" ++ pkg, data := CacheData.metaBytes m,
                      timestamp := now, expires := some (now + 5 * 60 * 1000) })
                  pkg
                  { name := some pkg, version := some (chooseVersion m),
                    tarball := vi.tarball, dependencies := vi.dependencies,
                    resolvedAt := some now, integrity := none } now) ("metadata:" ++ n) =
                  lookupA cache ("metadata:" ++ n) := by
              intro n hne
              rw [cachePackageObj,
                lookupA_setA_ne _ _ _ _ (fun hh => cleanN_ne_metaKey pkg hpkgc n hh.symm),
                lookupA_setA_ne _ _ _ _ (fun hh => hne (metaKey_inj n pkg hh))]
            have hdepsclean : ∀ n ∈ vi.dependencies.map Prod.fst, cleanN n = true := by
              intro n hn
              rcases List.mem_map.mp hn with ⟨d, hd, rfl⟩
              exact cleanRegistry_deps reg pkg (chooseVersion m) m vi hreg hr hvi d hd
            have hcs' : CleanState reg (rest ++ vi.dependencies.map Prod.fst)
                (pkg :: visited)
                (setA resolved pkg
                  { name := some pkg, version := some (chooseVersion m),
                    tarball := vi.tarball, dependencies := vi.dependencies,
                    resolvedAt := some now, integrity := none })
                (cachePackageObj
                  (setA cache ("metadata:" ++ pkg)
                    { key := "metadata:" ++ pkg, data := CacheData.metaBytes m,
                      timestamp := now, expires := some (now + 5 * 60 * 1000) })
                  pkg
                  { name := some pkg, version := some (chooseVersion m),
                    tarball := vi.tarball, dependencies := vi.dependencies,
                    resolvedAt := some now, integrity := none } now) :=
              { queueClean := by
                  intro n hn
                  rcases List.mem_append.mp hn with hn | hn
                  · exact hrestc n hn
                  · exact hdepsclean n hn
                freshBare := by
                  intro n hc hnv
                  have hne : n ≠ pkg := fun he => hnv (he ▸ List.mem_cons_self _ _)
                  have hnvis : n ∉ visited := fun hm2 => hnv (List.mem_cons_of_mem _ hm2)
                  rw [hkey1 n hc hne]
                  exact hcs.freshBare n hc hnvis
                freshMeta := by
                  intro n hc hnv
                  have hne : n ≠ pkg := fun he => hnv (he ▸ List.mem_cons_self _ _)
                  have hnvis : n ∉ visited := fun hm2 => hnv (List.mem_cons_of_mem _ hm2)
                  rw [hkey2 n hne]
                  exact hcs.freshMeta n hc hnvis
                visitedResolved := by
                  intro n hn hres
                  rcases List.mem_cons.mp hn with hn | hn
                  · subst hn
                    exact (mem_keysA_setA _ _ _ _).mpr (Or.inr rfl)
                  · exact (mem_keysA_setA _ _ _ _).mpr
                      (Or.inl (hcs.visitedResolved n hn hres))
                resolvedResolvable := by
                  intro k hk
                  rcases (mem_keysA_setA _ _ _ _).mp hk with hk | hk
                  · exact hcs.resolvedResolvable k hk
                  · exact hk ▸ hpkg_res
                valuesGood := by
                  intro p hp
                  rcases mem_of_mem_values_setA _ _ _ _ hp with hp | hp
                  · exact hcs.valuesGood p hp
                  · subst hp
                    exact ⟨rfl, rfl⟩ }
            obtain ⟨c1, c2, c3⟩ := ih _ _ _ _ g vis c' h hcs'
            refine ⟨?_, c2, c3⟩
            intro n hn hres
            rcases List.mem_cons.mp hn with hn | hn
            · subst hn
              exact resolveLoop_keys_mono reg now fuel _ _ _ _ g vis c' h n
                ((mem_keysA_setA _ _ _ _).mpr (Or.inr rfl))
            · exact c1 n (List.mem_append.mpr (Or.inl hn)) hres
          · subst hres_err
            subst hc2
            rw [show resolveLoop reg now (fuel + 1) (pkg :: rest) visited resolved cache =
                resolveLoop reg now fuel rest (pkg :: visited) resolved
                  (setA cache ("metadata:" ++ pkg)
                    { key := "metadata:" ++ pkg, data := CacheData.metaBytes m,
                      timestamp := now, expires := some (now + 5 * 60 * 1000) }) from by
              simp [resolveLoop, hv, hhit, htry]] at h
            have hpkg_not : regResolvable reg pkg = false := by
              simp [regResolvable, hr, hvi_none]
            have hcs' : CleanState reg rest (pkg :: visited) resolved
                (setA cache ("metadata:" ++ pkg)
                  { key := "metadata:" ++ pkg, data := CacheData.metaBytes m,
                    timestamp := now, expires := some (now + 5 * 60 * 1000) }) :=
              { queueClean := hrestc
                freshBare := by
                  intro n hc hnv
                  have hnvis : n ∉ visited := fun hm2 => hnv (List.mem_cons_of_mem _ hm2)
                  rw [lookupA_setA_ne _ _ _ _ (cleanN_ne_metaKey n hc pkg)]
                  exact hcs.freshBare n hc hnvis
                freshMeta := by
                  intro n hc hnv
                  have hne : n ≠ pkg := fun he => hnv (he ▸ List.mem_cons_self _ _)
                  have hnvis : n ∉ visited := fun hm2 => hnv (List.mem_cons_of_mem _ hm2)
                  rw [lookupA_setA_ne _ _ _ _ (fun hh => hne (metaKey_inj n pkg hh))]
                  exact hcs.freshMeta n hc hnvis
                visitedResolved := by
                  intro n hn hres
                  rcases List.mem_cons.mp hn with hn | hn
                  · subst hn
                    rw [hpkg_not] at hres
                    cases hres
                  · exact hcs.visitedResolved n hn hres
                resolvedResolvable := hcs.resolvedResolvable
                valuesGood := hcs.valuesGood }
            obtain ⟨c1, c2, c3⟩ := ih rest _ resolved _ g vis c' h hcs'
            refine ⟨?_, c2, c3⟩
            intro n hn hres
            rcases List.mem_cons.mp hn with hn | hn
            · subst hn
              rw [hpkg_not] at hres
              cases hres
            · exact c1 n hn hres

/-! Integrity invariant: no cache entry or graph value ever carries an
`integrity` field. -/

theorem objIntegrityNone_fetch (reg : Registry) (now : Nat) (cache : Cache)
    (name : String) (res : Except String Metadata) (cache' : Cache)
    (hobj : objIntegrityNone cache)
    (h : fetchPackageMetadata reg now cache name = (res, cache')) :
    objIntegrityNone cache' := by
  have hnet : ∀ m : Metadata, objIntegrityNone (setA cache ("metadata:" ++ name)
      { key := "metadata:" ++ name, data := CacheData.metaBytes m, timestamp := now,
        expires := some (now + 5 * 60 * 1000) }) := by
    intro m k e p hk hdata
    by_cases hkey : k = "metadata:" ++ name
    · subst hkey
      rw [lookupA_setA_self] at hk
      cases hk
      cases hdata
    · rw [lookupA_setA_ne _ _ _ _ hkey] at hk
      exact hobj k e p hk hdata
  simp only [fetchPackageMetadata] at h
  split at h
  · split at h
    · split at h
      · cases h
        exact hobj
      · cases h
        exact hobj
    · split at h
      · cases h
        exact hobj
      · next m _ =>
        cases h
        exact hnet m
  · split at h
    · cases h
      exact hobj
    · next m _ =>
      cases h
      exact hnet m

theorem objIntegrityNone_resolveTry (reg : Registry) (now : Nat) (cache : Cache)
    (pkg : String) (res : Except String (PackageData × List String)) (cache' : Cache)
    (hobj : objIntegrityNone cache)
    (h : resolveTry reg now cache pkg = (res, cache')) :
    objIntegrityNone cache' := by
  rw [resolveTry] at h
  rcases h1 : fetchPackageMetadata reg now cache pkg with ⟨fres, fcache⟩
  rw [h1] at h
  have hfc := objIntegrityNone_fetch reg now cache pkg fres fcache hobj h1
  rcases fres with e | metadata
  · cases h
    exact hfc
  · rcases h2 : lookupA metadata.versions (chooseVersion metadata) with _ | vi
    · simp only [h2] at h
      cases h
      exact hfc
    · simp only [h2] at h
      cases h
      exact hfc

theorem objIntegrityNone_setObj (cache : Cache) (pkg : String) (pd : PackageData)
    (now : Nat) (hpd : pd.integrity = none) (hobj : objIntegrityNone cache) :
    objIntegrityNone (cachePackageObj cache pkg pd now) := by
  intro k e p hk hdata
  by_cases hkey : k = pkg
  · subst hkey
    rw [cachePackageObj, lookupA_setA_self] at hk
    cases hk
    cases hdata
    exact hpd
  · rw [cachePackageObj, lookupA_setA_ne _ _ _ _ hkey] at hk
    exact hobj k e p hk hdata

theorem resolveTry_ok_pd (reg : Registry) (now : Nat) (cache : Cache) (pkg : String)
    (pd : PackageData) (deps : List String) (cache' : Cache)
    (h : resolveTry reg now cache pkg = (Except.ok (pd, deps), cache')) :
    pd.integrity = none ∧ pd.version.isSome = true := by
  rw [resolveTry] at h
  rcases h1 : fetchPackageMetadata reg now cache pkg with ⟨fres, fcache⟩
  rw [h1] at h
  rcases fres with e | metadata
  · cases h
  · rcases h2 : lookupA metadata.versions (chooseVersion metadata) with _ | vi
    · simp only [h2] at h
      cases h
    · simp only [h2] at h
      cases h
      exact ⟨rfl, rfl⟩

theorem resolveLoop_integrity (reg : Registry) (now : Nat) :
    ∀ fuel queue visited resolved cache g vis c',
      resolveLoop reg now fuel queue visited resolved cache = some (g, vis, c') →
      objIntegrityNone cache →
      (∀ p ∈ resolved, p.2.integrity = none) →
      ∀ p ∈ g, p.2.integrity = none := by
  intro fuel
  induction fuel with
  | zero =>
    intro queue visited resolved cache g vis c' h hobj hres
    cases queue with
    | nil =>
      rw [resolveLoop] at h
      cases h
      exact hres
    | cons p rest =>
      rw [resolveLoop] at h
      cases h
  | succ fuel ih =>
    intro queue visited resolved cache g vis c' h hobj hres
    cases queue with
    | nil =>
      rw [resolveLoop] at h
      cases h
      exact hres
    | cons pkg rest =>
      by_cases hv : pkg ∈ visited
      · rw [resolveLoop_visited_skip reg now fuel pkg rest visited resolved cache hv] at h
        exact ih rest visited resolved cache g vis c' h hobj hres
      · cases hhit : cacheHitData now cache pkg with
        | some d =>
          rw [show resolveLoop reg now (fuel + 1) (pkg :: rest) visited resolved cache =
              resolveLoop reg now fuel rest (pkg :: visited)
                (setA resolved pkg (dataToPkg d)) cache from by
            simp [resolveLoop, hv, hhit]] at h
          apply ih rest _ _ cache g vis c' h hobj
          intro p hp
          rcases mem_of_mem_values_setA _ _ _ _ hp with hp | hp
          · exact hres p hp
          · subst hp
            rcases cacheHitData_some_inv now cache pkg d hhit with ⟨e, he, hd⟩
            cases d with
            | obj q => exact hobj pkg e q he (hd ▸ rfl)
            | metaBytes m => rfl
        | none =>
          rcases htry : resolveTry reg now cache pkg with ⟨tres, cache2⟩
          have hobj2 : objIntegrityNone cache2 :=
            objIntegrityNone_resolveTry reg now cache pkg tres cache2 hobj htry
          cases tres with
          | error e =>
            rw [show resolveLoop reg now (fuel + 1) (pkg :: rest) visited resolved cache =
                resolveLoop reg now fuel rest (pkg :: visited) resolved cache2 from by
              simp [resolveLoop, hv, hhit, htry]] at h
            exact ih rest _ resolved cache2 g vis c' h hobj2 hres
          | ok pr =>
            rcases pr with ⟨pd, deps⟩
            have hpd := (resolveTry_ok_pd reg now cache pkg pd deps cache2 htry).1
            rw [show resolveLoop reg now (fuel + 1) (pkg :: rest) visited resolved cache =
                resolveLoop reg now fuel (rest ++ deps) (pkg :: visited)
                  (setA resolved pkg pd) (cachePackageObj cache2 pkg pd now) from by
              simp [resolveLoop, hv, hhit, htry]] at h
            apply ih (rest ++ deps) _ _ _ g vis c' h
              (objIntegrityNone_setObj cache2 pkg pd now hpd hobj2)
            intro p hp
            rcases mem_of_mem_values_setA _ _ _ _ hp with hp | hp
            · exact hres p hp
            · subst hp
              exact hpd

/-! Lockfile generation lemmas. -/

theorem strApp_inj (s a b : String) (h : s ++ a = s ++ b) : a = b := by
  have h2 : (s ++ a).data = (s ++ b).data := congrArg String.data h
  simp only [String.data_append] at h2
  exact String.ext (List.append_cancel_left h2)

theorem setA_append_of_not_mem {α : Type} (l : List (String × α)) (k : String) (v : α)
    (h : k ∉ keysA l) : setA l k v = l ++ [(k, v)] := by
  induction l with
  | nil => simp [setA]
  | cons p rest ih =>
    simp only [keysA, List.map_cons, List.mem_cons] at h
    push_neg at h
    rw [setA, if_neg (fun hh => h.1 hh.symm), ih h.2]
    rfl

theorem genLock_const (g : Graph) : ∀ lf : Lockfile,
    (g.foldl lockStep lf).name = lf.name ∧
    (g.foldl lockStep lf).version = lf.version ∧
    (g.foldl lockStep lf).lockfileVersion = lf.lockfileVersion := by
  induction g with
  | nil => exact fun lf => ⟨rfl, rfl, rfl⟩
  | cons p rest ih =>
    intro lf
    exact ih (lockStep lf p)

theorem genLock_go (g : Graph) : ∀ lf : Lockfile,
    (∀ n ∈ keysA g, n ∉ keysA lf.dependencies) →
    (∀ n ∈ keysA g, ("node_modules/" ++ n) ∉ keysA lf.packages) →
    (keysA g).Nodup →
    (g.foldl lockStep lf).packages =
      lf.packages ++ g.map (fun p => ("node_modules/" ++ p.1, mkLockEntry p.2)) ∧
    (g.foldl lockStep lf).dependencies =
      lf.dependencies ++ g.map (fun p => (p.1, p.2.version)) := by
  induction g with
  | nil => exact fun lf _ _ _ => ⟨by simp, by simp⟩
  | cons p rest ih =>
    intro lf hdep hpack hnd
    have hp1 : p.1 ∈ keysA (p :: rest) := List.mem_cons_self _ _
    have hstep_dep : (lockStep lf p).dependencies = lf.dependencies ++ [(p.1, p.2.version)] := by
      rw [lockStep]
      exact setA_append_of_not_mem _ _ _ (hdep p.1 hp1)
    have hstep_pack : (lockStep lf p).packages =
        lf.packages ++ [("node_modules/" ++ p.1, mkLockEntry p.2)] := by
      rw [lockStep]
      exact setA_append_of_not_mem _ _ _ (hpack p.1 hp1)
    have hnd' : (keysA rest).Nodup := by
      rw [keysA, List.map_cons] at hnd
      exact hnd.of_cons
    have hhead : p.1 ∉ keysA rest := by
      rw [keysA, List.map_cons] at hnd
      exact (List.nodup_cons.mp hnd).1
    have hdep' : ∀ n ∈ keysA rest, n ∉ keysA (lockStep lf p).dependencies := by
      intro n hn
      rw [hstep_dep, keysA, List.map_append, List.mem_append]
      push_neg
      constructor
      · exact hdep n (List.mem_cons_of_mem _ hn)
      · intro hc
        simp only [List.map_cons, List.map_nil, List.mem_singleton] at hc
        exact hhead (hc ▸ hn)
    have hpack' : ∀ n ∈ keysA rest, ("node_modules/" ++ n) ∉ keysA (lockStep lf p).packages := by
      intro n hn
      rw [hstep_pack, keysA, List.map_append, List.mem_append]
      push_neg
      constructor
      · exact hpack n (List.mem_cons_of_mem _ hn)
      · intro hc
        simp only [List.map_cons, List.map_nil, List.mem_singleton] at hc
        exact hhead ((strApp_inj "node_modules/" n p.1 hc) ▸ hn)
    obtain ⟨hP, hD⟩ := ih (lockStep lf p) hdep' hpack' hnd'
    constructor
    · rw [List.foldl_cons, hP, hstep_pack, List.map_cons, List.append_assoc]
      rfl
    · rw [List.foldl_cons, hD, hstep_dep, List.map_cons, List.append_assoc]
      rfl

theorem generateLockfile_maps (g : Graph) (hnd : (keysA g).Nodup) :
    (generateLockfile g).packages =
      g.map (fun p => ("node_modules/" ++ p.1, mkLockEntry p.2)) ∧
    (generateLockfile g).dependencies = g.map (fun p => (p.1, p.2.version)) := by
  have h := genLock_go g
    { name := "atiq-generated-lock", version := "1.0.0", lockfileVersion := 1,
      packages := [], dependencies := [] }
    (by intro n _ hc; simp [keysA] at hc)
    (by intro n _ hc; simp [keysA] at hc)
    hnd
  rw [generateLockfile]
  simpa using h

theorem generateLockfile_fixed (g : Graph) :
    (generateLockfile g).name = "atiq-generated-lock" ∧
    (generateLockfile g).version = "1.0.0" ∧
    (generateLockfile g).lockfileVersion = 1 :=
  genLock_const g _

/-! Helper lemmas for the claim theorems. -/

theorem nodup_keys_val_eq {α : Type} (l : List (String × α)) (h : (keysA l).Nodup)
    (n : String) (v1 v2 : α) (h1 : (n, v1) ∈ l) (h2 : (n, v2) ∈ l) : v1 = v2 := by
  induction l with
  | nil => cases h1
  | cons p rest ih =>
    rw [keysA, List.map_cons, List.nodup_cons] at h
    rcases List.mem_cons.mp h1 with h1 | h1 <;> rcases List.mem_cons.mp h2 with h2 | h2
    · rw [← h2] at h1
      exact congrArg Prod.snd h1
    · exfalso
      apply h.1
      have : n = p.1 := congrArg Prod.fst h1
      exact this ▸ List.mem_map_of_mem Prod.fst h2
    · exfalso
      apply h.1
      have : n = p.1 := congrArg Prod.fst h2
      exact this ▸ List.mem_map_of_mem Prod.fst h1
    · exact ih h.2 h1 h2

theorem install_with_packages_success (reg : Registry) (now : Nat) (fs : FS)
    (cache : Cache) (cwdOpt : Option String) (requests : List String) (dev : Bool) :
    (install reg now fs cache
      { cwd := cwdOpt, packages := some requests, dev := dev }).1.success = true := by
  rw [install]
  simp only [Option.isNone_some, Bool.and_false, Bool.false_eq_true, if_false]
  by_cases h : requests.isEmpty
  · simp [h]
  · simp [h]

theorem genLock_packages_mem (g : Graph) : ∀ (lf : Lockfile) (q : String × LockPkgEntry),
    q ∈ (g.foldl lockStep lf).packages →
    q ∈ lf.packages ∨ ∃ p ∈ g, q = ("node_modules/" ++ p.1, mkLockEntry p.2) := by
  induction g with
  | nil =>
    intro lf q hq
    exact Or.inl hq
  | cons p rest ih =>
    intro lf q hq
    rw [List.foldl_cons] at hq
    rcases ih (lockStep lf p) q hq with hq | ⟨r, hr, hq⟩
    · rw [lockStep] at hq
      rcases mem_of_mem_values_setA _ _ _ _ hq with hq | hq
      · exact Or.inl hq
      · exact Or.inr ⟨p, List.mem_cons_self _ _, hq⟩
    · exact Or.inr ⟨r, List.mem_cons_of_mem _ hr, hq⟩

/-- Claim C2 (corrected): lockfile generation is a pure function of the
graph, and for graphs with the same entries in any insertion order the
lockfiles agree as maps — top-level fields equal and the `packages` and
`dependencies` association lists are permutations of each other.  (The
original claim of identical serialized bytes fails: serialization follows
insertion order; see the counterexample.) -/
theorem spec_c2 (g1 g2 : Graph) (hperm : g1.Perm g2) (hnd : (keysA g1).Nodup) :
    (generateLockfile g1).name = (generateLockfile g2).name ∧
    (generateLockfile g1).version = (generateLockfile g2).version ∧
    (generateLockfile g1).lockfileVersion = (generateLockfile g2).lockfileVersion ∧
    (generateLockfile g1).packages.Perm (generateLockfile g2).packages ∧
    (generateLockfile g1).dependencies.Perm (generateLockfile g2).dependencies := by
  have hnd2 : (keysA g2).Nodup := (hperm.map Prod.fst).nodup hnd
  obtain ⟨hP1, hD1⟩ := generateLockfile_maps g1 hnd
  obtain ⟨hP2, hD2⟩ := generateLockfile_maps g2 hnd2
  obtain ⟨hn1, hv1, hl1⟩ := generateLockfile_fixed g1
  obtain ⟨hn2, hv2, hl2⟩ := generateLockfile_fixed g2
  refine ⟨hn1.trans hn2.symm, hv1.trans hv2.symm, hl1.trans hl2.symm, ?_, ?_⟩
  · rw [hP1, hP2]
    exact hperm.map _
  · rw [hD1, hD2]
    exact hperm.map _

/-- Claim C2 counterexample: two graphs with exactly the same
(name → resolved-package) entries, inserted in different orders, produce
different serialized lockfile bytes — refuting byte-level order
independence as originally claimed. -/
theorem spec_c2_counterexample :
    gXY.Perm gYX ∧
    lookupA gXY "pkg-x" = lookupA gYX "pkg-x" ∧
    lookupA gXY "pkg-y" = lookupA gYX "pkg-y" ∧
    serializeLockfile (generateLockfile gXY) ≠ serializeLockfile (generateLockfile gYX) := by
  refine ⟨by decide, by decide, by decide, by decide⟩

/-- Claim C2 witness: the amended statement applied to the concrete
two-entry graphs. -/
theorem spec_c2_witness :
    (generateLockfile gXY).packages.Perm (generateLockfile gYX).packages ∧
    (generateLockfile gXY).dependencies.Perm (generateLockfile gYX).dependencies :=
  ⟨(spec_c2 gXY gYX (by decide) (by decide)).2.2.2.1,
   (spec_c2 gXY gYX (by decide) (by decide)).2.2.2.2⟩

/-- Claim C7: flat-install invariant — every graph `resolveDependencies`
returns has at most one resolved package per name (its key list has no
duplicates, and two bindings of the same name carry equal values), and a
later queue occurrence of an already-visited name is a no-op: the loop
drops it and continues with an unchanged graph, visited set and cache
(first-resolved-wins). -/
theorem spec_c7 :
    (∀ (reg : Registry) (now : Nat) (cache : Cache) (packages : List String)
      (g : Graph) (c' : Cache),
      resolveDependencies reg now cache packages = (g, c') →
      (keysA g).Nodup ∧ ∀ n v1 v2, (n, v1) ∈ g → (n, v2) ∈ g → v1 = v2) ∧
    (∀ (reg : Registry) (now fuel : Nat) (pkg : String) (rest visited : List String)
      (resolved : Graph) (cache : Cache), pkg ∈ visited →
      resolveLoop reg now (fuel + 1) (pkg :: rest) visited resolved cache =
        resolveLoop reg now fuel rest visited resolved cache) := by
  constructor
  · intro reg now cache packages g c' h
    rcases hloop : resolveLoop reg now (resolveFuel reg cache packages) packages [] [] cache
      with _ | ⟨g0, vis0, c0⟩
    · simp only [resolveDependencies, hloop] at h
      cases h
      exact ⟨List.nodup_nil, fun n v1 v2 h1 _ => absurd h1 (List.not_mem_nil _)⟩
    · simp only [resolveDependencies, hloop] at h
      cases h
      have hnd := (resolveLoop_nodup reg now _ packages [] [] cache g vis0 c' hloop
        (fun k hk => absurd hk (List.not_mem_nil k)) List.nodup_nil).1
      exact ⟨hnd, fun n v1 v2 h1 h2 => nodup_keys_val_eq g hnd n v1 v2 h1 h2⟩
  · exact fun reg now fuel pkg rest visited resolved cache h =>
      resolveLoop_visited_skip reg now fuel pkg rest visited resolved cache h

/-- Claim C7 witness: flat-install invariant evaluated on the cyclic
registry, plus a concrete skipped duplicate. -/
theorem spec_c7_witness :
    (keysA (resolveDependencies regCycle 0 [] ["pkg-a", "pkg-b"]).1).Nodup ∧
    resolveLoop regCycle 0 3 ["pkg-a"] ["pkg-a"] [] [] =
      resolveLoop regCycle 0 2 [] ["pkg-a"] [] [] :=
  ⟨(spec_c7.1 regCycle 0 [] ["pkg-a", "pkg-b"] _ _ rfl).1,
   spec_c7.2 regCycle 0 2 "pkg-a" [] ["pkg-a"] [] [] (by decide)⟩

/-- Claim C10: the lockfile generated for any graph `resolveDependencies`
produces (from any cache state whose stored `packageData` objects lack an
`integrity` field, as all resolver-written entries do) has the constant
top-level fields `name = atiq-generated-lock`, `version = 1.0.0`,
`lockfileVersion = 1`, and every `packages` entry carries
`integrity = sha512-unknown`, because resolved packages are built without
an integrity field. -/
theorem spec_c10 (reg : Registry) (now : Nat) (cache : Cache) (requests : List String)
    (hobj : objIntegrityNone cache) (g : Graph) (c' : Cache)
    (h : resolveDependencies reg now cache requests = (g, c')) :
    (generateLockfile g).name = "atiq-generated-lock" ∧
    (generateLockfile g).version = "1.0.0" ∧
    (generateLockfile g).lockfileVersion = 1 ∧
    ∀ q ∈ (generateLockfile g).packages, q.2.integrity = "sha512-unknown" := by
  obtain ⟨hn, hv, hl⟩ := generateLockfile_fixed g
  refine ⟨hn, hv, hl, ?_⟩
  have hval : ∀ p ∈ g, p.2.integrity = none := by
    rcases hloop : resolveLoop reg now (resolveFuel reg cache requests) requests [] [] cache
      with _ | ⟨g0, vis0, c0⟩
    · simp only [resolveDependencies, hloop] at h
      cases h
      exact fun p hp => absurd hp (List.not_mem_nil p)
    · simp only [resolveDependencies, hloop] at h
      cases h
      exact resolveLoop_integrity reg now _ requests [] [] cache g vis0 c' hloop hobj
        (fun p hp => absurd hp (List.not_mem_nil p))
  intro q hq
  rw [generateLockfile] at hq
  rcases genLock_packages_mem g _ q hq with hq | ⟨p, hp, rfl⟩
  · simp at hq
  · show (mkLockEntry p.2).integrity = "sha512-unknown"
    rw [mkLockEntry, hval p hp]
    rfl

/-- Claim C10 witness: the theorem applied to the three-package registry
with an empty cache, with the constant fields evaluated. -/
theorem spec_c10_witness :
    (generateLockfile (resolveDependencies regABC 0 [] ["pkg-a"]).1).name =
      "atiq-generated-lock" ∧
    ∀ q ∈ (generateLockfile (resolveDependencies regABC 0 [] ["pkg-a"]).1).packages,
      q.2.integrity = "sha512-unknown" :=
  ⟨(spec_c10 regABC 0 [] ["pkg-a"] (fun k e p hk => by cases hk) _ _ rfl).1,
   (spec_c10 regABC 0 [] ["pkg-a"] (fun k e p hk => by cases hk) _ _ rfl).2.2.2⟩

/-- Claim C3: partial-failure policy — for every request list (of clean
names, resolved from a fresh cache) containing a name the registry cannot
resolve, the resolver skips only that name: the returned graph contains
every other resolvable request, the failing name is absent, and `install`
still reports `success := true`. -/
theorem spec_c3 (reg : Registry) (now : Nat) (requests : List String) (bad : String)
    (hreg : cleanRegistry reg = true) (hclean : ∀ n ∈ requests, cleanN n = true)
    (hbad : regResolvable reg bad = false) :
    (∀ g c', resolveDependencies reg now [] requests = (g, c') →
      (∀ r ∈ requests, r ≠ bad → regResolvable reg r = true → r ∈ keysA g) ∧
      bad ∉ keysA g) ∧
    ∀ (fs : FS) (cwdOpt : Option String) (dev : Bool),
      (install reg now fs []
        { cwd := cwdOpt, packages := some requests, dev := dev }).1.success = true := by
  constructor
  · intro g c' h
    have hsome := resolveDependencies_isSome reg now [] requests
    rcases hloop : resolveLoop reg now (resolveFuel reg [] requests) requests [] [] []
      with _ | ⟨g0, vis0, c0⟩
    · rw [hloop] at hsome
      cases hsome
    · simp only [resolveDependencies, hloop] at h
      cases h
      have hcs0 : CleanState reg requests [] [] [] :=
        { queueClean := hclean
          freshBare := fun n _ _ => rfl
          freshMeta := fun n _ _ => rfl
          visitedResolved := fun n hn => absurd hn (List.not_mem_nil n)
          resolvedResolvable := fun n hn => absurd hn (List.not_mem_nil n)
          valuesGood := fun p hp => absurd hp (List.not_mem_nil p) }
      obtain ⟨c1, c2, _⟩ := resolveLoop_clean_run reg now hreg _ requests [] [] [] g vis0 c'
        hloop hcs0
      refine ⟨fun r hr _ hres => c1 r hr hres, fun hmem => ?_⟩
      rw [c2 bad hmem] at hbad
      cases hbad
  · intro fs cwdOpt dev
    exact install_with_packages_success reg now fs [] cwdOpt requests dev

/-- Claim C3 witness: with `pkg-x` absent from the registry, requesting
`[pkg-a, pkg-x]` still resolves `pkg-a` (and transitively `pkg-b`,
`pkg-c`), omits `pkg-x`, and `install` succeeds. -/
theorem spec_c3_witness :
    "pkg-a" ∈ keysA (resolveDependencies regABC 0 [] ["pkg-a", "pkg-x"]).1 ∧
    "pkg-x" ∉ keysA (resolveDependencies regABC 0 [] ["pkg-a", "pkg-x"]).1 ∧
    (install regABC 0 [] []
      { cwd := none, packages := some ["pkg-a", "pkg-x"], dev := false }).1.success = true := by
  have h := spec_c3 regABC 0 ["pkg-a", "pkg-x"] "pkg-x" (by decide) (by decide) (by decide)
  exact ⟨(h.1 _ _ rfl).1 "pkg-a" (by decide) (by decide) (by decide),
    (h.1 _ _ rfl).2, h.2 [] none false⟩

/-- Claim C4: a request list containing a dependency cycle (both members
requested, mutually dependent through the registry, both resolvable, names
clean, fresh cache) terminates — the loop drains its queue within the
computed fuel — and yields a graph containing each cycle member exactly
once, with no cycle error raised (the loop has no error outcome at all). -/
theorem spec_c4 (reg : Registry) (now : Nat) (requests : List String) (a b : String)
    (hreg : cleanRegistry reg = true) (hclean : ∀ n ∈ requests, cleanN n = true)
    (ha : a ∈ requests) (hb : b ∈ requests) (hab : a ≠ b)
    (hra : regResolvable reg a = true) (hrb : regResolvable reg b = true)
    (hcycle1 : b ∈ regDepNames reg a) (hcycle2 : a ∈ regDepNames reg b) :
    ∃ g vis c',
      resolveLoop reg now (resolveFuel reg [] requests) requests [] [] [] =
        some (g, vis, c') ∧
      (keysA g).count a = 1 ∧ (keysA g).count b = 1 := by
  have hsome := resolveDependencies_isSome reg now [] requests
  rcases hloop : resolveLoop reg now (resolveFuel reg [] requests) requests [] [] []
    with _ | ⟨g0, vis0, c0⟩
  · rw [hloop] at hsome
    cases hsome
  · have hcs0 : CleanState reg requests [] [] [] :=
      { queueClean := hclean
        freshBare := fun n _ _ => rfl
        freshMeta := fun n _ _ => rfl
        visitedResolved := fun n hn => absurd hn (List.not_mem_nil n)
        resolvedResolvable := fun n hn => absurd hn (List.not_mem_nil n)
        valuesGood := fun p hp => absurd hp (List.not_mem_nil p) }
    obtain ⟨c1, _, _⟩ := resolveLoop_clean_run reg now hreg _ requests [] [] [] g0 vis0 c0
      hloop hcs0
    have hnd := (resolveLoop_nodup reg now _ requests [] [] [] g0 vis0 c0 hloop
      (fun k hk => absurd hk (List.not_mem_nil k)) List.nodup_nil).1
    exact ⟨g0, vis0, c0, rfl,
      List.count_eq_one_of_mem hnd (c1 a ha hra),
      List.count_eq_one_of_mem hnd (c1 b hb hrb)⟩

/-- Claim C4 witness: the mutual cycle `pkg-a <-> pkg-b`, both requested:
the loop terminates and each member appears exactly once. -/
theorem spec_c4_witness :
    ∃ g vis c',
      resolveLoop regCycle 0 (resolveFuel regCycle [] ["pkg-a", "pkg-b"])
        ["pkg-a", "pkg-b"] [] [] [] = some (g, vis, c') ∧
      (keysA g).count "pkg-a" = 1 ∧ (keysA g).count "pkg-b" = 1 :=
  spec_c4 regCycle 0 ["pkg-a", "pkg-b"] "pkg-a" "pkg-b" (by decide) (by decide)
    (by decide) (by decide) (by decide) (by decide) (by decide)
    (by decide) (by decide)

/-- Claim C5: `install` never escapes with an exception — every call
returns a structured result, either `success := true` with no error or
`success := false` with an error message; in particular, when no manifest
parses at `\x7bcwd\x7d/package.json` and no explicit package list is given, the
result is exactly the structured no-manifest failure. -/
theorem spec_c5 (reg : Registry) (now : Nat) (fs : FS) (cache : Cache)
    (opts : InstallOptions) :
    ((install reg now fs cache opts).1.success = true ∧
      (install reg now fs cache opts).1.error = none ∨
     (install reg now fs cache opts).1.success = false ∧
      ((install reg now fs cache opts).1.error).isSome = true) ∧
    (readManifest fs ((match opts.cwd with
        | some c => if c.isEmpty then "/" else c
        | none => "/") ++ "/package.json") = none →
      opts.packages = none →
      (install reg now fs cache opts).1 =
        { success := false, installed := [], duration := 0, metadata := none,
          error := some "Error: No package.json found and no packages specified" }) := by
  constructor
  · simp only [install]
    split
    · exact Or.inr ⟨rfl, rfl⟩
    · split
      · exact Or.inl ⟨rfl, rfl⟩
      · exact Or.inl ⟨rfl, rfl⟩
  · intro h1 h2
    simp [install, h1, h2]

/-- Claim C5 witness: the no-manifest no-packages case on an empty file
system returns the structured failure. -/
theorem spec_c5_witness :
    (install regABC 0 [] [] { cwd := none, packages := none, dev := false }).1 =
      { success := false, installed := [], duration := 0, metadata := none,
        error := some "Error: No package.json found and no packages specified" } :=
  (spec_c5 regABC 0 [] [] { cwd := none, packages := none, dev := false }).2
    (by decide) rfl

/-- Claim C6: metadata caching — a present, unexpired `metadata:\x7bname\x7d`
entry is answered from its deserialized cached bytes with the cache
untouched and no registry dependence (no network fetch); otherwise the
registry is consulted and, on success, the raw JSON bytes are stored with
expiry `now + 5` minutes before the parsed metadata is returned. -/
theorem spec_c6 :
    (∀ (reg : Registry) (now : Nat) (cache : Cache) (name : String)
      (entry : CacheEntry) (m : Metadata),
      lookupA cache ("metadata:" ++ name) = some entry →
      isCacheValid now entry = true →
      entry.data = CacheData.metaBytes m →
      fetchPackageMetadata reg now cache name = (Except.ok m, cache) ∧
      ∀ reg' : Registry,
        fetchPackageMetadata reg' now cache name =
          fetchPackageMetadata reg now cache name) ∧
    (∀ (reg : Registry) (now : Nat) (cache : Cache) (name : String) (m : Metadata),
      (lookupA cache ("metadata:" ++ name) = none ∨
        ∃ entry, lookupA cache ("metadata:" ++ name) = some entry ∧
          isCacheValid now entry = false) →
      lookupA reg name = some m →
      fetchPackageMetadata reg now cache name =
        (Except.ok m,
         setA cache ("metadata:" ++ name)
           { key := "metadata:" ++ name, data := CacheData.metaBytes m,
             timestamp := now, expires := some (now + 5 * 60 * 1000) })) := by
  constructor
  · intro reg now cache name entry m h1 h2 h3
    have hone : ∀ regx : Registry,
        fetchPackageMetadata regx now cache name = (Except.ok m, cache) := by
      intro regx
      simp only [fetchPackageMetadata, h1, h2, h3, if_true]
    exact ⟨hone reg, fun reg' => (hone reg').trans (hone reg).symm⟩
  · intro reg now cache name m hmiss hr
    rcases hmiss with hnone | ⟨entry, hsome, hexp⟩
    · simp only [fetchPackageMetadata, hnone, hr]
    · simp [fetchPackageMetadata, hsome, hexp, hr]

/-- Claim C6 witness: a cache hit for `left-pad` returns the cached
metadata without touching the cache, and a cold fetch stores the bytes
with a five-minute expiry. -/
theorem spec_c6_witness :
    fetchPackageMetadata [] 7 cacheLP "left-pad" = (Except.ok mLP, cacheLP) ∧
    fetchPackageMetadata [("left-pad", mLP)] 7 [] "left-pad" =
      (Except.ok mLP,
       setA [] "metadata:left-pad"
         { key := "metadata:left-pad", data := CacheData.metaBytes mLP,
           timestamp := 7, expires := some (7 + 5 * 60 * 1000) }) :=
  ⟨(spec_c6.1 [] 7 cacheLP "left-pad"
      { key := "metadata:left-pad", data := CacheData.metaBytes mLP, timestamp := 5,
        expires := some 500000 } mLP (by decide) (by decide) (by decide)).1,
   spec_c6.2 [("left-pad", mLP)] 7 [] "left-pad" mLP (Or.inl (by decide)) (by decide)⟩

/-- Claim C9: when a manifest exists but yields an empty package list,
`install` returns `\x7bsuccess := true, installed := []\x7d` immediately and
performs no writes at all — the file system (no `node_modules`, no
`package-lock.json`) and the cache come back unchanged. -/
theorem spec_c9 (reg : Registry) (now : Nat) (fs : FS) (cache : Cache)
    (cwdOpt : Option String) (dev : Bool) (m : Manifest)
    (hm : readManifest fs ((match cwdOpt with
        | some c => if c.isEmpty then "/" else c
        | none => "/") ++ "/package.json") = some m)
    (hempty : extractDependencies (some m) dev = []) :
    install reg now fs cache { cwd := cwdOpt, packages := none, dev := dev } =
      ({ success := true, installed := [], duration := 0, metadata := none,
         error := none }, fs, cache) := by
  simp [install, hm, hempty]

/-- Claim C9 witness: a manifest with no dependency maps installs nothing
and leaves the file system untouched. -/
theorem spec_c9_witness :
    install regABC 0
      [("//package.json", FsVal.manifestFile { dependencies := none, devDependencies := none })]
      [] { cwd := none, packages := none, dev := false } =
      ({ success := true, installed := [], duration := 0, metadata := none,
         error := none },
       [("//package.json", FsVal.manifestFile { dependencies := none, devDependencies := none })],
       []) :=
  spec_c9 regABC 0
    [("//package.json", FsVal.manifestFile { dependencies := none, devDependencies := none })]
    [] none false { dependencies := none, devDependencies := none } (by decide) (by decide)

/-- Claim C1 (code bug): in the concrete scenario pkg-a -> pkg-b -> pkg-c
the resolver does produce the graph with keys
`[pkg-a, pkg-b, pkg-c]`, and `install` reports success, but its
`installed` field is `[]` — `Object.keys` applied to a JS `Map` yields no
keys — contradicting the claim that `installed` equals the graph keys
(`[pkg-a, pkg-b, pkg-c]` here). -/
theorem spec_c1 :
    (install regABC 0 [] []
      { cwd := none, packages := some ["pkg-a"], dev := false }).1.success = true ∧
    (install regABC 0 [] []
      { cwd := none, packages := some ["pkg-a"], dev := false }).1.installed = [] ∧
    keysA (resolveDependencies regABC 0 [] ["pkg-a"]).1 = ["pkg-a", "pkg-b", "pkg-c"] ∧
    (install regABC 0 [] []
        { cwd := none, packages := some ["pkg-a"], dev := false }).1.installed ≠
      keysA (resolveDependencies regABC 0 [] ["pkg-a"]).1 := by
  refine ⟨by decide, by decide, by decide, by decide⟩

/-- Claim C8: lockfile round-trip — for every graph `resolveDependencies`
produces (clean request names, fresh cache), the generated lockfile has a
`dependencies` map whose keys are exactly the graph keys, a `packages` map
whose keys are exactly `node_modules/` + name for each graph key, and every
`dependencies` value present (so parsing the serialized lockfile recovers
exactly those key sets). -/
theorem spec_c8 (reg : Registry) (now : Nat) (requests : List String)
    (hreg : cleanRegistry reg = true) (hclean : ∀ n ∈ requests, cleanN n = true)
    (g : Graph) (c' : Cache) (h : resolveDependencies reg now [] requests = (g, c')) :
    (generateLockfile g).dependencies.map Prod.fst = keysA g ∧
    (generateLockfile g).packages.map Prod.fst =
      (keysA g).map (fun n => "node_modules/" ++ n) ∧
    ∀ q ∈ (generateLockfile g).dependencies, q.2.isSome = true := by
  have hsome := resolveDependencies_isSome reg now [] requests
  rcases hloop : resolveLoop reg now (resolveFuel reg [] requests) requests [] [] []
    with _ | ⟨g0, vis0, c0⟩
  · rw [hloop] at hsome
    cases hsome
  · simp only [resolveDependencies, hloop] at h
    cases h
    have hcs0 : CleanState reg requests [] [] [] :=
      { queueClean := hclean
        freshBare := fun n _ _ => rfl
        freshMeta := fun n _ _ => rfl
        visitedResolved := fun n hn => absurd hn (List.not_mem_nil n)
        resolvedResolvable := fun n hn => absurd hn (List.not_mem_nil n)
        valuesGood := fun p hp => absurd hp (List.not_mem_nil p) }
    obtain ⟨_, _, c3v⟩ := resolveLoop_clean_run reg now hreg _ requests [] [] [] g vis0 c'
      hloop hcs0
    have hnd := (resolveLoop_nodup reg now _ requests [] [] [] g vis0 c' hloop
      (fun k hk => absurd hk (List.not_mem_nil k)) List.nodup_nil).1
    obtain ⟨hP, hD⟩ := generateLockfile_maps g hnd
    refine ⟨?_, ?_, ?_⟩
    · rw [hD, List.map_map]
      rfl
    · rw [hP, List.map_map, keysA, List.map_map]
      rfl
    · intro q hq
      rw [hD] at hq
      rcases List.mem_map.mp hq with ⟨p, hp, rfl⟩
      exact (c3v p hp).1

/-- Claim C8 witness: the round-trip key sets on the three-package
scenario. -/
theorem spec_c8_witness :
    (generateLockfile (resolveDependencies regABC 0 [] ["pkg-a"]).1).dependencies.map
        Prod.fst = keysA (resolveDependencies regABC 0 [] ["pkg-a"]).1 ∧
    (generateLockfile (resolveDependencies regABC 0 [] ["pkg-a"]).1).packages.map
        Prod.fst =
      (keysA (resolveDependencies regABC 0 [] ["pkg-a"]).1).map
        (fun n => "node_modules/" ++ n) :=
  ⟨(spec_c8 regABC 0 ["pkg-a"] (by decide) (by decide) _ _ rfl).1,
   (spec_c8 regABC 0 ["pkg-a"] (by decide) (by decide) _ _ rfl).2.1⟩
